import Mathlib

/-!
Verification development for the SymAgents link reconciliation engine.

The engine keeps a documentation file, AGENTS.md, mirrored via symbolic
links into every directory matched by glob-based rules.  The embedding
below models the SymLinker class (fields cwd and linkedDirs; methods
hasLinks, checkAndLink, shouldLink, createSymlink, removeLink,
removeAllLinks, removeLinkSync, removeAllLinksSync), the applyAllLinks
driver loop of AgentRunner, and the signal-handler guard of index.ts.

Paths are modelled as lists of segments.  The filesystem is a function
from paths to entries; symbolic-link targets are stored as relative
segment lists, which covers every link the tool itself writes.
-/

namespace SymAgents

/-- A path segment, such as "src" or "AGENTS.md". -/
abbrev Seg := String

/-- An absolute path, as the list of its segments. -/
abbrev Path := List Seg

/-- The filename used for every link the tool manages. -/
def agentsFileName : Seg := "AGENTS.md"

/-- The candidate link path inside a directory: directory/AGENTS.md. -/
def linkPathOf (d : Path) : Path := d ++ [agentsFileName]

/-- A segment that neither is empty nor is a dot segment.  Paths made of
clean segments are the normalized absolute paths Node produces. -/
def cleanSeg (s : Seg) : Prop := s ≠ "" ∧ s ≠ "." ∧ s ≠ ".."

instance (s : Seg) : Decidable (cleanSeg s) := by unfold cleanSeg; infer_instance

/-- Every segment of the path is clean. -/
def cleanPath (p : Path) : Prop := ∀ s ∈ p, cleanSeg s

instance (p : Path) : Decidable (cleanPath p) := by unfold cleanPath; infer_instance

/-- Length of the common prefix of two segment lists. -/
def commonPrefixLen : Path → Path → Nat
  | a :: as, b :: bs => if a = b then commonPrefixLen as bs + 1 else 0
  | _, _ => 0

/-- Modelled from the spec: Node path.relative on two absolute paths
(the path module is an external collaborator, not under src/).  It
drops the common prefix and prepends one ".." per remaining segment of
the starting path. -/
def pathRelative (fromP toP : Path) : List Seg :=
  let c := commonPrefixLen fromP toP
  List.replicate (fromP.length - c) ".." ++ toP.drop c

/-- One step of lexical path normalization: ".." pops the last segment,
"." and empty segments vanish, anything else is appended. -/
def normStep (acc : List Seg) (s : Seg) : List Seg :=
  if s = "" ∨ s = "." then acc
  else if s = ".." then acc.dropLast
  else acc ++ [s]

/-- Lexical normalization of a segment list, processing dot segments. -/
def normalizeSegs (l : List Seg) : List Seg := l.foldl normStep []

/-- Modelled from the spec: Node path.resolve of a relative target
against an absolute base directory (purely lexical, clamped at the
root, symlinks not followed). -/
def pathResolve (base : Path) (target : List Seg) : Path :=
  normalizeSegs (base ++ target)

/-- Whether the string begins with two literal dots.  This mirrors the
JavaScript string test relativePath.startsWith("..") used by
shouldLink. -/
def strStartsWithDotDot (s : String) : Bool := s.toList.take 2 == ['.', '.']

/-- Whether the string begins with a slash, mirroring the core of Node
path.isAbsolute on POSIX. -/
def strStartsWithSlash (s : String) : Bool := s.toList.take 1 == ['/']

/-- The joined relative path starts with "..".  Segments contain no
slash, so the string produced by joining with "/" starts with two dots
exactly when the first segment does. -/
def relStartsWithDotDot : List Seg → Bool
  | [] => false
  | s :: _ => strStartsWithDotDot s

/-- The joined relative path is absolute, that is, starts with "/". -/
def relIsAbsolute : List Seg → Bool
  | [] => false
  | s :: _ => strStartsWithSlash s

/-- Splits a string into segments at slashes, modelling the separator
split that the minimatch library performs on patterns and paths. -/
def splitSegsAux : List Char → List Char → List String
  | [], acc => [String.mk acc.reverse]
  | '/' :: rest, acc => String.mk acc.reverse :: splitSegsAux rest []
  | c :: rest, acc => splitSegsAux rest (c :: acc)

/-- Splits a pattern string on "/". -/
def splitSegs (s : String) : List String := splitSegsAux s.toList []

/-- Parses the body of a glob character class up to the closing
bracket, returning the ranges and the remaining pattern characters. -/
def parseClassBody : List Char → Option (List (Char × Char) × List Char)
  | [] => none
  | ']' :: rest => some ([], rest)
  | a :: '-' :: b :: rest =>
      match parseClassBody rest with
      | some (items, r) => some ((a, b) :: items, r)
      | none => none
  | a :: rest =>
      match parseClassBody rest with
      | some (items, r) => some ((a, a) :: items, r)
      | none => none

/-- Whether a character falls in one of the class ranges. -/
def classHit (items : List (Char × Char)) (c : Char) : Bool :=
  items.any (fun ab => decide (ab.1 ≤ c) && decide (c ≤ ab.2))

/-- Modelled from the spec: single-segment shell-glob matching with
star, question mark and character classes, as provided by the external
minimatch library.  The fuel argument only bounds the recursion; every
call shrinks pattern plus input, so pattern length plus input length
plus one suffices. -/
def segMatchFuel : Nat → List Char → List Char → Bool
  | 0, _, _ => false
  | _ + 1, [], [] => true
  | fuel + 1, '*' :: ps, s =>
      segMatchFuel fuel ps s ||
        (match s with
         | [] => false
         | _ :: s2 => segMatchFuel fuel ('*' :: ps) s2)
  | fuel + 1, '?' :: ps, _ :: s2 => segMatchFuel fuel ps s2
  | fuel + 1, '[' :: ps, c :: s2 =>
      let negBody : Bool × List Char :=
        match ps with
        | '!' :: rest => (true, rest)
        | '^' :: rest => (true, rest)
        | _ => (false, ps)
      (match parseClassBody negBody.2 with
       | some (items, rest) =>
           (classHit items c != negBody.1) && segMatchFuel fuel rest s2
       | none => ('[' == c) && segMatchFuel fuel ps s2)
  | fuel + 1, p :: ps, c :: s2 => (p == c) && segMatchFuel fuel ps s2
  | _ + 1, _, _ => false

/-- Glob match of one pattern segment against one path segment. -/
def segMatch (pat s : String) : Bool :=
  segMatchFuel (pat.length + s.length + 1) pat.toList s.toList

/-- Modelled from the spec: matching a slash-split glob pattern against
the slash-split relative path, where a double-star segment matches any
number of path segments.  Fueled like segMatchFuel. -/
def globSegsFuel : Nat → List String → List String → Bool
  | 0, _, _ => false
  | _ + 1, [], [] => true
  | fuel + 1, "**" :: ps, ss =>
      globSegsFuel fuel ps ss ||
        (match ss with
         | [] => false
         | _ :: ss2 => globSegsFuel fuel ("**" :: ps) ss2)
  | fuel + 1, p :: ps, s :: ss => segMatch p s && globSegsFuel fuel ps ss
  | _ + 1, _, _ => false

/-- Modelled from the spec: the minimatch call used by shouldLink.  The
relative path is already split into segments in this embedding; the
pattern string is split on slashes here. -/
def minimatch (relSegs : List Seg) (pattern : String) : Bool :=
  let pats := splitSegs pattern
  globSegsFuel (pats.length + relSegs.length + 1) pats relSegs

/-- One configuration entry, the AgentConfig interface of types.ts:
optional include and exclude glob patterns, the root directory the
patterns are evaluated against, and the resolved agent file path. -/
structure AgentConfig where
  includePatterns : Option (List String) := none
  excludePatterns : Option (List String) := none
  rootDir : Path
  agentFile : Path
deriving DecidableEq, Repr

/-- What a filesystem path currently holds.  Symbolic-link targets are
kept as relative segment lists, the form the tool always writes. -/
inductive Entry
  | absent
  | file (content : String)
  | dir
  | symlink (target : List Seg)
deriving DecidableEq, Repr

/-- The filesystem, as a total map from paths to entries. -/
abbrev Fs := Path → Entry

/-- Pointwise filesystem update. -/
def fsUpdate (fs : Fs) (p : Path) (e : Entry) : Fs :=
  fun q => if q = p then e else fs q

/-- Modelled from the spec: the follow-symlinks existence probe of
fs.pathExists and fs.existsSync.  A symbolic link exists when its
resolved target does; one level of resolution suffices for the links
the tool manages, which point at regular files.  The base is the
directory holding the probed path. -/
def entryExistsAt (fs : Fs) (base : Path) (p : Path) : Bool :=
  match fs p with
  | Entry.absent => false
  | Entry.symlink t => fs (pathResolve base t) != Entry.absent
  | _ => true

/-- A structured view of the diagnostics the SymLinker prints: the
conflict warning carries the directory and every matching rule root. -/
inductive LogEntry
  | conflict (d : Path) (roots : List Path)
deriving DecidableEq, Repr

/-- The mutable state of one SymLinker instance (the linkedDirs map)
together with the filesystem it acts on and the warnings it emitted. -/
structure LState where
  fs : Fs
  linkedDirs : List (Path × AgentConfig)
  log : List LogEntry

/-- JavaScript Map.set: replace the value under an existing key, else
append the binding. -/
def mapSet (m : List (Path × AgentConfig)) (k : Path) (v : AgentConfig) :
    List (Path × AgentConfig) :=
  if m.any (fun kv => kv.1 == k) then
    m.map (fun kv => if kv.1 = k then (k, v) else kv)
  else m ++ [(k, v)]

/-- JavaScript Map.delete by key. -/
def mapDelete (m : List (Path × AgentConfig)) (k : Path) :
    List (Path × AgentConfig) :=
  m.filter (fun kv => kv.1 != k)

/-- JavaScript Map.has. -/
def mapHas (m : List (Path × AgentConfig)) (k : Path) : Bool :=
  m.any (fun kv => kv.1 == k)

/-- SymLinker.hasLinks: whether the linkedDirs map is nonempty. -/
def hasLinks (s : LState) : Bool := s.linkedDirs.length > 0

/-- The exclude test of SymLinker.shouldLink: some exclude pattern
matches the relative path. -/
def excludeHit (config : AgentConfig) (rel : List Seg) : Bool :=
  match config.excludePatterns with
  | some pats => pats.any (fun p => minimatch rel p)
  | none => false

/-- The include test of SymLinker.shouldLink: with no include list the
directory matches by default, otherwise some include pattern must
match. -/
def includeHit (config : AgentConfig) (rel : List Seg) : Bool :=
  match config.includePatterns with
  | some pats => pats.any (fun p => minimatch rel p)
  | none => true

/-- SymLinker.shouldLink: relative path computed from the rule root;
rejected when it textually starts with two dots or is absolute or is
empty; excludes checked before includes; missing include list means
default allow. -/
def shouldLink (dirPath : Path) (config : AgentConfig) : Bool :=
  let relativePath := pathRelative config.rootDir dirPath
  if relStartsWithDotDot relativePath || relIsAbsolute relativePath then false
  else if relativePath = [] then false
  else if excludeHit config relativePath then false
  else includeHit config relativePath

/-- SymLinker.createSymlink.  The directory is registered in linkedDirs
first, before any filesystem inspection.  Then: an existing entry that
is not a symlink is left untouched; a symlink resolving to the agent
file is a no-op; a wrong symlink is unlinked and recreated; an absent
entry gets a fresh relative link.  fs-extra ensureSymlink only creates
the link when the relative target resolves to an existing entry, and
raises (caught and logged by the source) when a dangling link still
occupies the path after the follow-symlinks existence probe said
nothing was there. -/
def createSymlink (s : LState) (targetDir : Path) (config : AgentConfig) : LState :=
  let s1 : LState := { s with linkedDirs := mapSet s.linkedDirs targetDir config }
  let linkPath := linkPathOf targetDir
  let relTarget := pathRelative targetDir config.agentFile
  if entryExistsAt s1.fs targetDir linkPath then
    match s1.fs linkPath with
    | Entry.symlink t =>
        if pathResolve targetDir t = normalizeSegs config.agentFile then s1
        else
          let s2 : LState := { s1 with fs := fsUpdate s1.fs linkPath Entry.absent }
          if s2.fs (pathResolve targetDir relTarget) != Entry.absent then
            { s2 with fs := fsUpdate s2.fs linkPath (Entry.symlink relTarget) }
          else s2
    | _ => s1
  else
    match s1.fs linkPath with
    | Entry.absent =>
        if s1.fs (pathResolve targetDir relTarget) != Entry.absent then
          { s1 with fs := fsUpdate s1.fs linkPath (Entry.symlink relTarget) }
        else s1
    | _ => s1

/-- SymLinker.checkAndLink: collect every config whose shouldLink
accepts the directory; zero matches do nothing; two or more emit one
conflict warning naming every matching root and change nothing else;
exactly one match realizes the link. -/
def checkAndLink (s : LState) (dirPath : Path) (configs : List AgentConfig) : LState :=
  let matching := configs.filter (fun c => shouldLink dirPath c)
  match matching with
  | [] => s
  | [config] => createSymlink s dirPath config
  | _ :: _ :: _ =>
      { s with log := s.log ++ [LogEntry.conflict dirPath (matching.map (fun c => c.rootDir))] }

/-- AgentRunner.applyAllLinks, the core of runOnce: the glob expansion
that discovers candidate directories is external, so the deduplicated
candidate list is a parameter; each candidate is processed against the
whole rule set. -/
def applyAllLinks (s : LState) (dirs : List Path) (configs : List AgentConfig) : LState :=
  dirs.foldl (fun st d => checkAndLink st d configs) s

/-- An injected failure of one filesystem call. -/
inductive FsError
  | ENOENT
  | other
deriving DecidableEq, Repr

/-- The try block of SymLinker.removeLink: a follow-symlinks existence
probe that, when nothing is there, just drops the record; an lstat that
keeps real files untouched and keeps their record; an unlink of a
symbolic link, which may be made to fail through the oracle. -/
def removeLinkTry (s : LState) (targetDir : Path) (unlinkErr : Option FsError) :
    Except FsError LState :=
  let linkPath := linkPathOf targetDir
  if entryExistsAt s.fs targetDir linkPath then
    match s.fs linkPath with
    | Entry.symlink _ =>
        match unlinkErr with
        | some e => Except.error e
        | none =>
            Except.ok { s with fs := fsUpdate s.fs linkPath Entry.absent,
                               linkedDirs := mapDelete s.linkedDirs targetDir }
    | _ => Except.ok s
  else
    Except.ok { s with linkedDirs := mapDelete s.linkedDirs targetDir }

/-- SymLinker.removeLink with its catch clause: ENOENT is treated as a
benign race, the record is dropped and the call succeeds; any other
error is logged and the call still returns normally. -/
def removeLink (s : LState) (targetDir : Path) (unlinkErr : Option FsError) :
    Except FsError LState :=
  match removeLinkTry s targetDir unlinkErr with
  | Except.ok s2 => Except.ok s2
  | Except.error e =>
      if e = FsError.ENOENT then
        Except.ok { s with linkedDirs := mapDelete s.linkedDirs targetDir }
      else Except.ok s

/-- Runs removeLink and extracts the state; the error branch is
unreachable because the catch clause handles every failure. -/
def removeLinkOk (s : LState) (targetDir : Path) (unlinkErr : Option FsError) : LState :=
  match removeLink s targetDir unlinkErr with
  | Except.ok s2 => s2
  | Except.error _ => s

/-- SymLinker.removeAllLinks: withdraw every tracked directory (each
removal settles on its own, failures of one do not stop the others),
then clear the map. -/
def removeAllLinks (s : LState) (errs : Path → Option FsError) : LState :=
  let dirs := s.linkedDirs.map (fun kv => kv.1)
  let s2 := dirs.foldl (fun st d => removeLinkOk st d (errs d)) s
  { s2 with linkedDirs := [] }

/-- The try block of SymLinker.removeLinkSync: existence probe, lstat
(failure injectable), unlink of a symlink (failure injectable); unlike
the asynchronous variant, the record is dropped even when the entry is
a real file. -/
def removeLinkSyncTry (s : LState) (targetDir : Path)
    (lstatErr unlinkErr : Option FsError) : Except FsError LState :=
  let linkPath := linkPathOf targetDir
  if entryExistsAt s.fs targetDir linkPath then
    match lstatErr with
    | some e => Except.error e
    | none =>
        match s.fs linkPath with
        | Entry.symlink _ =>
            match unlinkErr with
            | some e => Except.error e
            | none =>
                Except.ok { s with fs := fsUpdate s.fs linkPath Entry.absent,
                                   linkedDirs := mapDelete s.linkedDirs targetDir }
        | _ => Except.ok { s with linkedDirs := mapDelete s.linkedDirs targetDir }
  else
    Except.ok { s with linkedDirs := mapDelete s.linkedDirs targetDir }

/-- SymLinker.removeLinkSync with its catch clause: ENOENT drops the
record and succeeds; every other error is silently ignored during the
emergency cleanup so that the remaining directories are still tried. -/
def removeLinkSync (s : LState) (targetDir : Path)
    (lstatErr unlinkErr : Option FsError) : Except FsError LState :=
  match removeLinkSyncTry s targetDir lstatErr unlinkErr with
  | Except.ok s2 => Except.ok s2
  | Except.error e =>
      if e = FsError.ENOENT then
        Except.ok { s with linkedDirs := mapDelete s.linkedDirs targetDir }
      else Except.ok s

/-- Runs removeLinkSync and extracts the state. -/
def removeLinkSyncOk (s : LState) (targetDir : Path)
    (lstatErr unlinkErr : Option FsError) : LState :=
  match removeLinkSync s targetDir lstatErr unlinkErr with
  | Except.ok s2 => s2
  | Except.error _ => s

/-- SymLinker.removeAllLinksSync: synchronously withdraw every tracked
directory, then clear the map. -/
def removeAllLinksSync (s : LState) (lstatErrs unlinkErrs : Path → Option FsError) : LState :=
  let dirs := s.linkedDirs.map (fun kv => kv.1)
  let s2 := dirs.foldl (fun st d => removeLinkSyncOk st d (lstatErrs d) (unlinkErrs d)) s
  { s2 with linkedDirs := [] }

/-- The same loop written in the error monad, to state that no failure
of an individual synchronous removal ever escapes the teardown. -/
def removeAllLinksSyncE (s : LState) (lstatErrs unlinkErrs : Path → Option FsError) :
    Except FsError LState := do
  let dirs := s.linkedDirs.map (fun kv => kv.1)
  let s2 ← dirs.foldlM (fun st d => removeLinkSync st d (lstatErrs d) (unlinkErrs d)) s
  pure { s2 with linkedDirs := [] }

/-- The hosting process state around the signal handler of index.ts:
the runner state plus the guard flag hasCleanedUp. -/
structure CliState where
  hasCleanedUp : Bool
  runner : LState

/-- The cleanupSync handler of index.ts: a guarded, synchronous, full
teardown; the flag makes any further invocation a no-op. -/
def cleanupSync (c : CliState) : CliState :=
  if c.hasCleanedUp then c
  else
    { hasCleanedUp := true,
      runner := removeAllLinksSync c.runner (fun _ => none) (fun _ => none) }

/-- An entry that is a regular file or a directory: the user-authored
content the tool must preserve. -/
def isRealEntry : Entry → Bool
  | Entry.file _ => true
  | Entry.dir => true
  | _ => false

/-- The link decision for a directory is settled: with a unique
matching rule the link-path entry is user content or a symlink already
resolving to the document of that rule; any other rule count needs no
action. -/
def convergedEntry (e : Entry) (d : Path) (configs : List AgentConfig) : Prop :=
  match configs.filter (fun c => shouldLink d c) with
  | [cfg] => isRealEntry e = true ∨
      ∃ t, e = Entry.symlink t ∧ pathResolve d t = normalizeSegs cfg.agentFile
  | _ => True

/-! ### Concrete scenario fixtures -/

/-- A rule rooted at /p matching every subdirectory. -/
def wCfg : AgentConfig :=
  { includePatterns := some ["**/*"], rootDir := ["p"], agentFile := ["p", "AGENTS.md"] }

/-- A second, distinct rule rooted at /p matching subdirectories of
src, as in the overlapping-rules scenario of the spec. -/
def wCfgSrc : AgentConfig :=
  { includePatterns := some ["src/**"], rootDir := ["p"], agentFile := ["p", "AGENTS.md"] }

/-- A rule that declares no include list. -/
def wCfgNoInclude : AgentConfig := { rootDir := ["p"], agentFile := ["p", "AGENTS.md"] }

/-- Filesystem holding the shared agent document and one user-authored
AGENTS.md file inside /p/c. -/
def wFs : Fs := fun q =>
  if q = ["p", "AGENTS.md"] then Entry.file "base"
  else if q = ["p", "c", "AGENTS.md"] then Entry.file "custom"
  else Entry.absent

/-- Clean starting state, nothing tracked. -/
def wEmpty : LState := { fs := wFs, linkedDirs := [], log := [] }

/-- State that tracks directory /p/c, whose entry is a real file. -/
def wRealTracked : LState := { fs := wFs, linkedDirs := [(["p", "c"], wCfg)], log := [] }

/-- Filesystem after watch mode created a link inside /p/a. -/
def wFsLinked : Fs := fun q =>
  if q = ["p", "AGENTS.md"] then Entry.file "base"
  else if q = ["p", "a", "AGENTS.md"] then Entry.symlink ["..", "AGENTS.md"]
  else Entry.absent

/-- State tracking the link created inside /p/a. -/
def wLinked : LState := { fs := wFsLinked, linkedDirs := [(["p", "a"], wCfg)], log := [] }

/-- Filesystem holding a dangling stale symlink inside /p/a whose
target path is the link path of the other candidate /p/b. -/
def wFsChain : Fs := fun q =>
  if q = ["p", "AGENTS.md"] then Entry.file "base"
  else if q = ["p", "a", "AGENTS.md"] then Entry.symlink ["..", "b", "AGENTS.md"]
  else Entry.absent

/-- Starting state of the stale-chain scenario. -/
def wChain : LState := { fs := wFsChain, linkedDirs := [], log := [] }

/-- A rule with an exclude list and no include list. -/
def wCfgExcl : AgentConfig :=
  { excludePatterns := some ["sub/**"], rootDir := ["p"], agentFile := ["p", "AGENTS.md"] }

/-- An injected-failure oracle that fails for an unrelated path. -/
def wErrs : Path → Option FsError := fun q =>
  if q = ["p", "z"] then some FsError.other else none

/-! ### Path lemmas -/

theorem commonPrefixLen_le_left : ∀ a b : Path, commonPrefixLen a b ≤ a.length
  | [], _ => by simp [commonPrefixLen]
  | _ :: _, [] => by simp [commonPrefixLen]
  | a :: as, b :: bs => by
    by_cases h : a = b
    · simpa [commonPrefixLen, h] using commonPrefixLen_le_left as bs
    · simp [commonPrefixLen, h]

theorem commonPrefixLen_self : ∀ a : Path, commonPrefixLen a a = a.length
  | [] => by simp [commonPrefixLen]
  | a :: as => by simp [commonPrefixLen, commonPrefixLen_self as]

theorem take_commonPrefixLen_eq :
    ∀ a b : Path, a.take (commonPrefixLen a b) = b.take (commonPrefixLen a b)
  | [], b => by simp [commonPrefixLen]
  | _ :: _, [] => by simp [commonPrefixLen]
  | a :: as, b :: bs => by
    by_cases h : a = b
    · simp [commonPrefixLen, h, take_commonPrefixLen_eq as bs]
    · simp [commonPrefixLen, h]

theorem commonPrefixLen_eq_length_iff :
    ∀ a b : Path, commonPrefixLen a b = a.length ↔ a <+: b
  | [], b => by simp [commonPrefixLen]
  | a :: as, [] => by
    simp [commonPrefixLen]
  | a :: as, b :: bs => by
    by_cases h : a = b
    · subst h
      simp [commonPrefixLen, commonPrefixLen_eq_length_iff as bs, List.cons_prefix_cons]
    · have hlen : commonPrefixLen (a :: as) (b :: bs) = 0 := by simp [commonPrefixLen, h]
      simp [hlen, List.cons_prefix_cons, h]

theorem pathRelative_self (a : Path) : pathRelative a a = [] := by
  simp [pathRelative, commonPrefixLen_self]

theorem pathRelative_escape {a b : Path} (h : ¬ a <+: b) :
    ∃ rest, pathRelative a b = ".." :: rest := by
  have hlt : commonPrefixLen a b < a.length :=
    lt_of_le_of_ne (commonPrefixLen_le_left a b)
      (fun he => h ((commonPrefixLen_eq_length_iff a b).mp he))
  obtain ⟨k, hk⟩ : ∃ k, a.length - commonPrefixLen a b = k + 1 :=
    ⟨a.length - commonPrefixLen a b - 1, by omega⟩
  refine ⟨List.replicate k ".." ++ b.drop (commonPrefixLen a b), ?_⟩
  unfold pathRelative
  simp only [hk, List.replicate_succ, List.cons_append]

theorem normStep_clean {s : Seg} (h : cleanSeg s) (acc : List Seg) :
    normStep acc s = acc ++ [s] := by
  obtain ⟨h1, h2, h3⟩ := h
  simp [normStep, h1, h2, h3]

theorem foldl_normStep_clean :
    ∀ l : List Seg, cleanPath l → ∀ acc, List.foldl normStep acc l = acc ++ l
  | [], _, acc => by simp
  | s :: l, h, acc => by
    have hs : cleanSeg s := h s (by simp)
    have hl : cleanPath l := fun x hx => h x (by simp [hx])
    simp [normStep_clean hs, foldl_normStep_clean l hl]

theorem normalizeSegs_clean {l : List Seg} (h : cleanPath l) : normalizeSegs l = l := by
  simpa using foldl_normStep_clean l h []

theorem foldl_normStep_dotdot :
    ∀ (k : Nat) (acc : List Seg),
      List.foldl normStep acc (List.replicate k "..") = acc.take (acc.length - k)
  | 0, acc => by simp
  | k + 1, acc => by
    have hstep : normStep acc ".." = acc.dropLast := by simp [normStep]
    rw [List.replicate_succ, List.foldl_cons, hstep, foldl_normStep_dotdot k acc.dropLast]
    rw [List.dropLast_eq_take, List.take_take, List.length_take]
    congr 1
    omega

theorem pathResolve_pathRelative {d f : Path} (hd : cleanPath d) (hf : cleanPath f) :
    pathResolve d (pathRelative d f) = f := by
  have hc : commonPrefixLen d f ≤ d.length := commonPrefixLen_le_left d f
  have hdropClean : cleanPath (f.drop (commonPrefixLen d f)) :=
    fun x hx => hf x (List.mem_of_mem_drop hx)
  unfold pathResolve pathRelative normalizeSegs
  rw [List.foldl_append, foldl_normStep_clean d hd [], List.nil_append,
    List.foldl_append, foldl_normStep_dotdot, foldl_normStep_clean _ hdropClean]
  have hcc : d.length - (d.length - commonPrefixLen d f) = commonPrefixLen d f := by omega
  rw [hcc, take_commonPrefixLen_eq d f, List.take_append_drop]

theorem linkPathOf_inj {d1 d2 : Path} (h : linkPathOf d1 = linkPathOf d2) : d1 = d2 := by
  simpa [linkPathOf] using h

/-! ### Map and entry helper lemmas -/

theorem mapDelete_idem (m : List (Path × AgentConfig)) (k : Path) :
    mapDelete (mapDelete m k) k = mapDelete m k := by
  simp [mapDelete, List.filter_filter]

theorem mapHas_mapDelete (m : List (Path × AgentConfig)) (k : Path) :
    mapHas (mapDelete m k) k = false := by
  simp only [mapHas, mapDelete, List.any_eq_false]
  intro kv hkv
  have := List.of_mem_filter hkv
  simpa using this

theorem mapHas_mapSet (m : List (Path × AgentConfig)) (k : Path) (v : AgentConfig) :
    mapHas (mapSet m k v) k = true := by
  unfold mapHas mapSet
  split
  · rename_i hany
    rw [List.any_eq_true] at hany ⊢
    obtain ⟨kv, hm, hk⟩ := hany
    refine ⟨(k, v), List.mem_map.mpr ⟨kv, hm, ?_⟩, by simp⟩
    simp only [beq_iff_eq] at hk
    simp [hk]
  · simp

/-! ### createSymlink lemmas -/

theorem createSymlink_log (s : LState) (d : Path) (cfg : AgentConfig) :
    (createSymlink s d cfg).log = s.log := by
  unfold createSymlink
  dsimp only
  repeat' split
  all_goals rfl

theorem createSymlink_linkedDirs (s : LState) (d : Path) (cfg : AgentConfig) :
    (createSymlink s d cfg).linkedDirs = mapSet s.linkedDirs d cfg := by
  unfold createSymlink
  dsimp only
  repeat' split
  all_goals rfl

theorem createSymlink_fs_of_ne {s : LState} {d p : Path} {cfg : AgentConfig}
    (h : p ≠ linkPathOf d) : (createSymlink s d cfg).fs p = s.fs p := by
  unfold createSymlink
  dsimp only
  repeat' split
  all_goals simp [fsUpdate, h]

theorem createSymlink_preserves_real {s : LState} {d p : Path} {cfg : AgentConfig}
    (h : isRealEntry (s.fs p) = true) : (createSymlink s d cfg).fs p = s.fs p := by
  by_cases hp : p = linkPathOf d
  · subst hp
    unfold createSymlink
    dsimp only
    cases he : s.fs (linkPathOf d) with
    | absent => simp [isRealEntry, he] at h
    | symlink t => simp [isRealEntry, he] at h
    | file c => simp [entryExistsAt, he]
    | dir => simp [entryExistsAt, he]
  · exact createSymlink_fs_of_ne hp

/-! ### checkAndLink and applyAllLinks lemmas -/

theorem checkAndLink_fs_of_ne {s : LState} {d p : Path} {cfgs : List AgentConfig}
    (h : p ≠ linkPathOf d) : (checkAndLink s d cfgs).fs p = s.fs p := by
  unfold checkAndLink
  dsimp only
  split
  · rfl
  · exact createSymlink_fs_of_ne h
  · rfl

theorem checkAndLink_preserves_real {s : LState} {d p : Path} {cfgs : List AgentConfig}
    (h : isRealEntry (s.fs p) = true) : (checkAndLink s d cfgs).fs p = s.fs p := by
  unfold checkAndLink
  dsimp only
  split
  · rfl
  · exact createSymlink_preserves_real h
  · rfl

theorem applyAllLinks_cons (s : LState) (d : Path) (rest : List Path)
    (cfgs : List AgentConfig) :
    applyAllLinks s (d :: rest) cfgs = applyAllLinks (checkAndLink s d cfgs) rest cfgs := rfl

theorem applyAllLinks_preserves_real {cfgs : List AgentConfig} :
    ∀ (dirs : List Path) (s : LState) (p : Path), isRealEntry (s.fs p) = true →
      (applyAllLinks s dirs cfgs).fs p = s.fs p := by
  intro dirs
  induction dirs with
  | nil => intro s p _; rfl
  | cons d rest ih =>
      intro s p h
      rw [applyAllLinks_cons]
      have h1 : (checkAndLink s d cfgs).fs p = s.fs p := checkAndLink_preserves_real h
      rw [ih _ p (by rw [h1]; exact h), h1]

theorem applyAllLinks_fs_of_notMem {cfgs : List AgentConfig} :
    ∀ (dirs : List Path) (s : LState) (p : Path), (∀ d ∈ dirs, p ≠ linkPathOf d) →
      (applyAllLinks s dirs cfgs).fs p = s.fs p := by
  intro dirs
  induction dirs with
  | nil => intro s p _; rfl
  | cons d rest ih =>
      intro s p h
      rw [applyAllLinks_cons, ih _ p (fun x hx => h x (by simp [hx])),
        checkAndLink_fs_of_ne (h d (by simp))]

theorem createSymlink_nonabsent {s : LState} {d : Path} {cfg : AgentConfig} {c : String}
    (hd : cleanPath d) (hf : cleanPath cfg.agentFile)
    (hAg : s.fs cfg.agentFile = Entry.file c) (p : Path)
    (h : s.fs p ≠ Entry.absent) : (createSymlink s d cfg).fs p ≠ Entry.absent := by
  by_cases hp : p = linkPathOf d
  · subst hp
    have hrt : pathResolve d (pathRelative d cfg.agentFile) = cfg.agentFile :=
      pathResolve_pathRelative hd hf
    unfold createSymlink
    dsimp only
    cases he : s.fs (linkPathOf d) with
    | absent => exact absurd he h
    | file cc =>
        simp only [entryExistsAt, he, if_true]
        simp [he]
    | dir =>
        simp only [entryExistsAt, he, if_true]
        simp [he]
    | symlink t =>
        by_cases hex : entryExistsAt s.fs d (linkPathOf d) = true
        · rw [if_pos hex]
          simp only [he]
          by_cases hcor : pathResolve d t = normalizeSegs cfg.agentFile
          · simp [hcor, he]
          · rw [if_neg hcor]
            have hne : cfg.agentFile ≠ linkPathOf d := by
              intro hcontra
              rw [hcontra] at hAg
              rw [hAg] at he
              exact Entry.noConfusion he
            have hval : fsUpdate s.fs (linkPathOf d) Entry.absent
                (pathResolve d (pathRelative d cfg.agentFile)) = Entry.file c := by
              rw [hrt, fsUpdate, if_neg hne, hAg]
            simp only [hval]
            simp [fsUpdate]
        · rw [if_neg hex]
          simp [he]
  · rw [createSymlink_fs_of_ne hp]
    exact h

theorem checkAndLink_nonabsent {s : LState} {d : Path} {cfgs : List AgentConfig}
    (hd : cleanPath d)
    (hc : ∀ cfg ∈ cfgs, cleanPath cfg.agentFile ∧ ∃ c, s.fs cfg.agentFile = Entry.file c)
    (p : Path) (h : s.fs p ≠ Entry.absent) : (checkAndLink s d cfgs).fs p ≠ Entry.absent := by
  unfold checkAndLink
  dsimp only
  split
  · exact h
  · rename_i config hm
    have hmem : config ∈ cfgs := by
      have : config ∈ List.filter (fun c => shouldLink d c) cfgs := by
        rw [hm]; simp
      exact List.mem_of_mem_filter this
    obtain ⟨hf, clean⟩ := hc config hmem
    obtain ⟨c, hAg⟩ := clean
    exact createSymlink_nonabsent hd hf hAg p h
  · exact h

theorem applyAllLinks_nonabsent {cfgs : List AgentConfig} :
    ∀ (dirs : List Path) (s : LState) (p : Path), (∀ d ∈ dirs, cleanPath d) →
      (∀ cfg ∈ cfgs, cleanPath cfg.agentFile ∧ ∃ c, s.fs cfg.agentFile = Entry.file c) →
      s.fs p ≠ Entry.absent → (applyAllLinks s dirs cfgs).fs p ≠ Entry.absent := by
  intro dirs
  induction dirs with
  | nil => intro s p _ _ h; exact h
  | cons d rest ih =>
      intro s p hdirs hc h
      rw [applyAllLinks_cons]
      refine ih _ p (fun x hx => hdirs x (by simp [hx])) ?_
        (checkAndLink_nonabsent (hdirs d (by simp)) hc p h)
      intro cfg hcfg
      obtain ⟨hf, c, hAg⟩ := hc cfg hcfg
      exact ⟨hf, c, by
        rw [checkAndLink_preserves_real (by rw [hAg]; rfl), hAg]⟩

/-! ### Convergence of the reconciliation pass -/

theorem createSymlink_noop_of_correct {s : LState} {d : Path} {cfg : AgentConfig}
    {t : List Seg} (he : s.fs (linkPathOf d) = Entry.symlink t)
    (hres : pathResolve d t = normalizeSegs cfg.agentFile) (p : Path) :
    (createSymlink s d cfg).fs p = s.fs p := by
  unfold createSymlink
  dsimp only
  rw [he]
  split <;> simp [hres]

theorem createSymlink_noop_of_real {s : LState} {d : Path} {cfg : AgentConfig}
    (h : isRealEntry (s.fs (linkPathOf d)) = true) (p : Path) :
    (createSymlink s d cfg).fs p = s.fs p := by
  by_cases hp : p = linkPathOf d
  · subst hp
    exact createSymlink_preserves_real h
  · exact createSymlink_fs_of_ne hp

theorem checkAndLink_fs_of_converged {s : LState} {d : Path} {cfgs : List AgentConfig}
    (h : convergedEntry (s.fs (linkPathOf d)) d cfgs) (p : Path) :
    (checkAndLink s d cfgs).fs p = s.fs p := by
  unfold checkAndLink
  dsimp only
  split
  · rfl
  · rename_i config hm
    unfold convergedEntry at h
    rw [hm] at h
    rcases h with hreal | ⟨t, he, hres⟩
    · exact createSymlink_noop_of_real hreal p
    · exact createSymlink_noop_of_correct he hres p
  · rfl

theorem createSymlink_fs_absent {s : LState} {d : Path} {cfg : AgentConfig}
    (he : s.fs (linkPathOf d) = Entry.absent)
    (hne : s.fs (pathResolve d (pathRelative d cfg.agentFile)) ≠ Entry.absent) :
    (createSymlink s d cfg).fs (linkPathOf d)
      = Entry.symlink (pathRelative d cfg.agentFile) := by
  have hex : entryExistsAt s.fs d (linkPathOf d) = false := by
    unfold entryExistsAt
    rw [he]
  unfold createSymlink
  dsimp only
  rw [hex]
  simp only [Bool.false_eq_true, if_false]
  rw [he]
  simp [bne_iff_ne, hne, fsUpdate]

theorem createSymlink_fs_stale {s : LState} {d : Path} {cfg : AgentConfig} {t : List Seg}
    (he : s.fs (linkPathOf d) = Entry.symlink t)
    (hcor : pathResolve d t ≠ normalizeSegs cfg.agentFile)
    (hex : s.fs (pathResolve d t) ≠ Entry.absent)
    (hAgNe : cfg.agentFile ≠ linkPathOf d)
    (hne : s.fs (pathResolve d (pathRelative d cfg.agentFile)) ≠ Entry.absent)
    (hrt : pathResolve d (pathRelative d cfg.agentFile) = cfg.agentFile) :
    (createSymlink s d cfg).fs (linkPathOf d)
      = Entry.symlink (pathRelative d cfg.agentFile) := by
  have hexb : entryExistsAt s.fs d (linkPathOf d) = true := by
    unfold entryExistsAt
    rw [he]
    simp [bne_iff_ne, hex]
  unfold createSymlink
  dsimp only
  rw [hexb]
  simp only [if_true]
  rw [he]
  dsimp only
  rw [if_neg hcor]
  have hupd : fsUpdate s.fs (linkPathOf d) Entry.absent
      (pathResolve d (pathRelative d cfg.agentFile)) ≠ Entry.absent := by
    rw [hrt, fsUpdate, if_neg hAgNe]
    rw [hrt] at hne
    exact hne
  have hcond : (fsUpdate s.fs (linkPathOf d) Entry.absent
      (pathResolve d (pathRelative d cfg.agentFile)) != Entry.absent) = true := by
    simp [bne_iff_ne, hupd]
  rw [hcond]
  simp [fsUpdate]

theorem checkAndLink_establishes {s : LState} {d : Path} {cfgs : List AgentConfig}
    (hd : cleanPath d)
    (hc : ∀ cfg ∈ cfgs, cleanPath cfg.agentFile ∧ ∃ c, s.fs cfg.agentFile = Entry.file c)
    (hnd : ∀ t, s.fs (linkPathOf d) = Entry.symlink t →
      s.fs (pathResolve d t) ≠ Entry.absent) :
    convergedEntry ((checkAndLink s d cfgs).fs (linkPathOf d)) d cfgs := by
  unfold checkAndLink
  dsimp only
  split
  · rename_i hm
    unfold convergedEntry
    rw [hm]
    trivial
  · rename_i config hm
    have hmem : config ∈ cfgs := by
      have : config ∈ List.filter (fun c => shouldLink d c) cfgs := by rw [hm]; simp
      exact List.mem_of_mem_filter this
    obtain ⟨hf, c, hAg⟩ := hc config hmem
    have hrt : pathResolve d (pathRelative d config.agentFile) = config.agentFile :=
      pathResolve_pathRelative hd hf
    have hnorm : normalizeSegs config.agentFile = config.agentFile := normalizeSegs_clean hf
    unfold convergedEntry
    rw [hm]
    cases he : s.fs (linkPathOf d) with
    | file cc =>
        left
        rw [createSymlink_preserves_real (by rw [he]; rfl), he]
        rfl
    | dir =>
        left
        rw [createSymlink_preserves_real (by rw [he]; rfl), he]
        rfl
    | absent =>
        right
        have hne : s.fs (pathResolve d (pathRelative d config.agentFile)) ≠ Entry.absent := by
          rw [hrt, hAg]
          exact fun hcontra => Entry.noConfusion hcontra
        exact ⟨pathRelative d config.agentFile, createSymlink_fs_absent he hne,
          by rw [hrt, hnorm]⟩
    | symlink t =>
        right
        by_cases hcor : pathResolve d t = normalizeSegs config.agentFile
        · exact ⟨t, by rw [createSymlink_noop_of_correct he hcor, he], hcor⟩
        · have hAgNe : config.agentFile ≠ linkPathOf d := by
            intro hcontra
            rw [hcontra] at hAg
            rw [hAg] at he
            exact Entry.noConfusion he
          have hne : s.fs (pathResolve d (pathRelative d config.agentFile)) ≠ Entry.absent := by
            rw [hrt, hAg]
            exact fun hcontra => Entry.noConfusion hcontra
          exact ⟨pathRelative d config.agentFile,
            createSymlink_fs_stale he hcor (hnd t he) hAgNe hne hrt, by rw [hrt, hnorm]⟩
  · rename_i l hl hm
    unfold convergedEntry
    rw [hm]
    trivial

theorem applyAllLinks_establishes {cfgs : List AgentConfig} :
    ∀ (dirs : List Path) (s : LState), dirs.Nodup → (∀ d ∈ dirs, cleanPath d) →
      (∀ cfg ∈ cfgs, cleanPath cfg.agentFile ∧ ∃ c, s.fs cfg.agentFile = Entry.file c) →
      (∀ d ∈ dirs, ∀ t, s.fs (linkPathOf d) = Entry.symlink t →
        s.fs (pathResolve d t) ≠ Entry.absent) →
      ∀ d ∈ dirs, convergedEntry ((applyAllLinks s dirs cfgs).fs (linkPathOf d)) d cfgs := by
  intro dirs
  induction dirs with
  | nil =>
      intro s _ _ _ _ d hd
      simp at hd
  | cons x rest ih =>
      intro s hnd hclean hcfg hdang d hd
      have hx : x ∉ rest := (List.nodup_cons.mp hnd).1
      have hrestnd : rest.Nodup := (List.nodup_cons.mp hnd).2
      rw [applyAllLinks_cons]
      have hcfg1 : ∀ cfg ∈ cfgs, cleanPath cfg.agentFile ∧
          ∃ c, (checkAndLink s x cfgs).fs cfg.agentFile = Entry.file c := by
        intro cfg hcfg2
        obtain ⟨hf, c, hAg⟩ := hcfg cfg hcfg2
        exact ⟨hf, c, by rw [checkAndLink_preserves_real (by rw [hAg]; rfl), hAg]⟩
      rcases List.mem_cons.mp hd with rfl | hdrest
      · have hcx : convergedEntry ((checkAndLink s d cfgs).fs (linkPathOf d)) d cfgs :=
          checkAndLink_establishes (hclean d (by simp)) hcfg (hdang d (by simp))
        have hloc : (applyAllLinks (checkAndLink s d cfgs) rest cfgs).fs (linkPathOf d)
            = (checkAndLink s d cfgs).fs (linkPathOf d) := by
          refine applyAllLinks_fs_of_notMem rest _ _ ?_
          intro y hy hcontra
          exact hx (by rw [linkPathOf_inj hcontra]; exact hy)
        rw [hloc]
        exact hcx
      · refine ih (checkAndLink s x cfgs) hrestnd
          (fun y hy => hclean y (by simp [hy])) hcfg1 ?_ d hdrest
        intro d2 hd2 t ht
        have hne : linkPathOf d2 ≠ linkPathOf x := by
          intro hcontra
          exact hx (by rw [← linkPathOf_inj hcontra]; exact hd2)
        rw [checkAndLink_fs_of_ne hne] at ht
        exact checkAndLink_nonabsent (hclean x (by simp)) hcfg _
          (hdang d2 (by simp [hd2]) t ht)

theorem applyAllLinks_noop {cfgs : List AgentConfig} :
    ∀ (dirs : List Path) (t : LState),
      (∀ d ∈ dirs, convergedEntry (t.fs (linkPathOf d)) d cfgs) →
      ∀ p, (applyAllLinks t dirs cfgs).fs p = t.fs p := by
  intro dirs
  induction dirs with
  | nil => intro t _ p; rfl
  | cons x rest ih =>
      intro t hconv p
      rw [applyAllLinks_cons]
      have h1 : ∀ q, (checkAndLink t x cfgs).fs q = t.fs q :=
        checkAndLink_fs_of_converged (hconv x (by simp))
      have h2 := ih (checkAndLink t x cfgs)
        (fun d hd => by rw [h1]; exact hconv d (by simp [hd]))
      rw [h2 p, h1 p]

theorem applyAllLinks_idem {cfgs : List AgentConfig} {dirs : List Path} {s : LState}
    (hnd : dirs.Nodup) (hclean : ∀ d ∈ dirs, cleanPath d)
    (hcfg : ∀ cfg ∈ cfgs, cleanPath cfg.agentFile ∧ ∃ c, s.fs cfg.agentFile = Entry.file c)
    (hdang : ∀ d ∈ dirs, ∀ t, s.fs (linkPathOf d) = Entry.symlink t →
      s.fs (pathResolve d t) ≠ Entry.absent) (p : Path) :
    (applyAllLinks (applyAllLinks s dirs cfgs) dirs cfgs).fs p
      = (applyAllLinks s dirs cfgs).fs p :=
  applyAllLinks_noop dirs (applyAllLinks s dirs cfgs)
    (applyAllLinks_establishes dirs s hnd hclean hcfg hdang) p

/-! ### Withdrawal lemmas -/

theorem removeLink_isOk (s : LState) (d : Path) (e : Option FsError) :
    (removeLink s d e).isOk = true := by
  unfold removeLink removeLinkTry
  dsimp only
  repeat' split
  all_goals rfl

theorem removeLink_eq_ok (s : LState) (d : Path) (e : Option FsError) :
    removeLink s d e = Except.ok (removeLinkOk s d e) := by
  unfold removeLinkOk
  cases h : removeLink s d e with
  | ok s2 => rfl
  | error e2 =>
      have := removeLink_isOk s d e
      rw [h] at this
      exact absurd this (by simp [Except.isOk, Except.toBool])

theorem removeLinkSync_isOk (s : LState) (d : Path) (a b : Option FsError) :
    (removeLinkSync s d a b).isOk = true := by
  unfold removeLinkSync removeLinkSyncTry
  dsimp only
  repeat' split
  all_goals rfl

theorem removeLinkSync_eq_ok (s : LState) (d : Path) (a b : Option FsError) :
    removeLinkSync s d a b = Except.ok (removeLinkSyncOk s d a b) := by
  unfold removeLinkSyncOk
  cases h : removeLinkSync s d a b with
  | ok s2 => rfl
  | error e2 =>
      have := removeLinkSync_isOk s d a b
      rw [h] at this
      exact absurd this (by simp [Except.isOk, Except.toBool])

theorem removeLinkOk_of_notExists {s : LState} {d : Path} {e : Option FsError}
    (h : entryExistsAt s.fs d (linkPathOf d) = false) :
    removeLinkOk s d e = { s with linkedDirs := mapDelete s.linkedDirs d } := by
  unfold removeLinkOk removeLink removeLinkTry
  dsimp only
  rw [h]
  rfl

theorem removeLinkOk_of_real {s : LState} {d : Path} {e : Option FsError}
    (h : isRealEntry (s.fs (linkPathOf d)) = true) : removeLinkOk s d e = s := by
  unfold removeLinkOk removeLink removeLinkTry
  dsimp only
  cases he : s.fs (linkPathOf d) with
  | absent => simp [isRealEntry, he] at h
  | symlink t => simp [isRealEntry, he] at h
  | file c => simp [entryExistsAt, he]
  | dir => simp [entryExistsAt, he]

theorem removeLinkOk_symlink {s : LState} {d : Path} {t : List Seg}
    (he : s.fs (linkPathOf d) = Entry.symlink t)
    (hex : s.fs (pathResolve d t) ≠ Entry.absent) :
    removeLinkOk s d none
      = { s with fs := fsUpdate s.fs (linkPathOf d) Entry.absent,
                 linkedDirs := mapDelete s.linkedDirs d } := by
  have hexb : entryExistsAt s.fs d (linkPathOf d) = true := by
    unfold entryExistsAt
    rw [he]
    simp [bne_iff_ne, hex]
  unfold removeLinkOk removeLink removeLinkTry
  dsimp only
  rw [hexb, he]
  rfl

theorem entryExistsAt_of_absent {fs : Fs} {base p : Path} (he : fs p = Entry.absent) :
    entryExistsAt fs base p = false := by
  unfold entryExistsAt
  rw [he]

theorem entryExistsAt_of_real {fs : Fs} {base p : Path}
    (h : isRealEntry (fs p) = true) : entryExistsAt fs base p = true := by
  unfold entryExistsAt
  cases he : fs p with
  | absent => rw [he] at h; simp [isRealEntry] at h
  | symlink t => rw [he] at h; simp [isRealEntry] at h
  | file c => rfl
  | dir => rfl

theorem entryExistsAt_of_symlink {fs : Fs} {base p : Path} {t : List Seg}
    (he : fs p = Entry.symlink t) :
    entryExistsAt fs base p = (fs (pathResolve base t) != Entry.absent) := by
  unfold entryExistsAt
  rw [he]

theorem removeLinkOk_symlink_err {s : LState} {d : Path} {t : List Seg} {er : FsError}
    (he : s.fs (linkPathOf d) = Entry.symlink t)
    (hex : s.fs (pathResolve d t) ≠ Entry.absent) :
    removeLinkOk s d (some er)
      = (if er = FsError.ENOENT then { s with linkedDirs := mapDelete s.linkedDirs d }
         else s) := by
  have hexb : entryExistsAt s.fs d (linkPathOf d) = true := by
    rw [entryExistsAt_of_symlink he]
    simp [bne_iff_ne, hex]
  unfold removeLinkOk removeLink removeLinkTry
  dsimp only
  rw [hexb, he]
  by_cases her : er = FsError.ENOENT
  · subst her
    simp
  · simp [her]

theorem removeLinkOk_fs_of_ne {s : LState} {d p : Path} {e : Option FsError}
    (h : p ≠ linkPathOf d) : (removeLinkOk s d e).fs p = s.fs p := by
  by_cases hex : entryExistsAt s.fs d (linkPathOf d) = true
  · cases he : s.fs (linkPathOf d) with
    | absent => rw [entryExistsAt_of_absent he] at hex; simp at hex
    | file c => rw [removeLinkOk_of_real (by rw [he]; rfl)]
    | dir => rw [removeLinkOk_of_real (by rw [he]; rfl)]
    | symlink t =>
        have hres : s.fs (pathResolve d t) ≠ Entry.absent := by
          rw [entryExistsAt_of_symlink he] at hex
          simpa [bne_iff_ne] using hex
        cases e with
        | none => rw [removeLinkOk_symlink he hres]; simp [fsUpdate, h]
        | some er => rw [removeLinkOk_symlink_err he hres]; split <;> rfl
  · rw [removeLinkOk_of_notExists (by simpa using hex)]

theorem removeLinkOk_preserves_real {s : LState} {d p : Path} {e : Option FsError}
    (h : isRealEntry (s.fs p) = true) : (removeLinkOk s d e).fs p = s.fs p := by
  by_cases hp : p = linkPathOf d
  · subst hp
    rw [removeLinkOk_of_real h]
  · exact removeLinkOk_fs_of_ne hp

theorem removeLinkOk_fs_cases (s : LState) (d : Path) (e : Option FsError) (p : Path) :
    (removeLinkOk s d e).fs p = s.fs p ∨ (removeLinkOk s d e).fs p = Entry.absent := by
  by_cases hp : p = linkPathOf d
  · subst hp
    by_cases hex : entryExistsAt s.fs d (linkPathOf d) = true
    · cases he : s.fs (linkPathOf d) with
      | absent => rw [entryExistsAt_of_absent he] at hex; simp at hex
      | file c => rw [removeLinkOk_of_real (by rw [he]; rfl)]; exact Or.inl he
      | dir => rw [removeLinkOk_of_real (by rw [he]; rfl)]; exact Or.inl he
      | symlink t =>
          have hres : s.fs (pathResolve d t) ≠ Entry.absent := by
            rw [entryExistsAt_of_symlink he] at hex
            simpa [bne_iff_ne] using hex
          cases e with
          | none =>
              rw [removeLinkOk_symlink he hres]
              right
              simp [fsUpdate]
          | some er =>
              rw [removeLinkOk_symlink_err he hres]
              split <;> exact Or.inl he
    · rw [removeLinkOk_of_notExists (by simpa using hex)]
      exact Or.inl rfl
  · exact Or.inl (removeLinkOk_fs_of_ne hp)

theorem removeLinkOk_idem (s : LState) (d : Path) :
    removeLinkOk (removeLinkOk s d none) d none = removeLinkOk s d none := by
  by_cases hex : entryExistsAt s.fs d (linkPathOf d) = true
  · cases he : s.fs (linkPathOf d) with
    | absent => rw [entryExistsAt_of_absent he] at hex; simp at hex
    | file c =>
        have h1 : removeLinkOk s d none = s := removeLinkOk_of_real (by rw [he]; rfl)
        rw [h1]
        exact h1
    | dir =>
        have h1 : removeLinkOk s d none = s := removeLinkOk_of_real (by rw [he]; rfl)
        rw [h1]
        exact h1
    | symlink t =>
        have hres : s.fs (pathResolve d t) ≠ Entry.absent := by
          rw [entryExistsAt_of_symlink he] at hex
          simpa [bne_iff_ne] using hex
        rw [removeLinkOk_symlink he hres]
        refine (removeLinkOk_of_notExists ?_).trans ?_
        · exact entryExistsAt_of_absent (by simp [fsUpdate])
        · simp [mapDelete_idem]
  · have hexf : entryExistsAt s.fs d (linkPathOf d) = false := by simpa using hex
    have h1 : removeLinkOk s d none = { s with linkedDirs := mapDelete s.linkedDirs d } :=
      removeLinkOk_of_notExists hexf
    have h2 := @removeLinkOk_of_notExists
      { s with linkedDirs := mapDelete s.linkedDirs d } d none hexf
    rw [h1, h2]
    simp [mapDelete_idem]

/-! ### Synchronous withdrawal lemmas -/

theorem removeLinkSyncOk_of_notExists {s : LState} {d : Path} {a b : Option FsError}
    (h : entryExistsAt s.fs d (linkPathOf d) = false) :
    removeLinkSyncOk s d a b = { s with linkedDirs := mapDelete s.linkedDirs d } := by
  unfold removeLinkSyncOk removeLinkSync removeLinkSyncTry
  dsimp only
  rw [h]
  rfl

theorem removeLinkSyncOk_of_real_none {s : LState} {d : Path} {b : Option FsError}
    (h : isRealEntry (s.fs (linkPathOf d)) = true) :
    removeLinkSyncOk s d none b = { s with linkedDirs := mapDelete s.linkedDirs d } := by
  have hexb : entryExistsAt s.fs d (linkPathOf d) = true := entryExistsAt_of_real h
  unfold removeLinkSyncOk removeLinkSync removeLinkSyncTry
  dsimp only
  rw [hexb]
  cases he : s.fs (linkPathOf d) with
  | absent => rw [he] at h; simp [isRealEntry] at h
  | symlink t => rw [he] at h; simp [isRealEntry] at h
  | file c => simp
  | dir => simp

theorem removeLinkSyncOk_lstatErr {s : LState} {d : Path} {er : FsError} {b : Option FsError}
    (hexb : entryExistsAt s.fs d (linkPathOf d) = true) :
    removeLinkSyncOk s d (some er) b
      = (if er = FsError.ENOENT then { s with linkedDirs := mapDelete s.linkedDirs d }
         else s) := by
  unfold removeLinkSyncOk removeLinkSync removeLinkSyncTry
  dsimp only
  rw [hexb]
  by_cases her : er = FsError.ENOENT
  · subst her
    simp
  · simp [her]

theorem removeLinkSyncOk_symlink {s : LState} {d : Path} {t : List Seg}
    (he : s.fs (linkPathOf d) = Entry.symlink t)
    (hex : s.fs (pathResolve d t) ≠ Entry.absent) :
    removeLinkSyncOk s d none none
      = { s with fs := fsUpdate s.fs (linkPathOf d) Entry.absent,
                 linkedDirs := mapDelete s.linkedDirs d } := by
  have hexb : entryExistsAt s.fs d (linkPathOf d) = true := by
    rw [entryExistsAt_of_symlink he]
    simp [bne_iff_ne, hex]
  unfold removeLinkSyncOk removeLinkSync removeLinkSyncTry
  dsimp only
  rw [hexb, he]
  rfl

theorem removeLinkSyncOk_symlink_unlinkErr {s : LState} {d : Path} {t : List Seg}
    {er : FsError} (he : s.fs (linkPathOf d) = Entry.symlink t)
    (hex : s.fs (pathResolve d t) ≠ Entry.absent) :
    removeLinkSyncOk s d none (some er)
      = (if er = FsError.ENOENT then { s with linkedDirs := mapDelete s.linkedDirs d }
         else s) := by
  have hexb : entryExistsAt s.fs d (linkPathOf d) = true := by
    rw [entryExistsAt_of_symlink he]
    simp [bne_iff_ne, hex]
  unfold removeLinkSyncOk removeLinkSync removeLinkSyncTry
  dsimp only
  rw [hexb, he]
  by_cases her : er = FsError.ENOENT
  · subst her
    simp
  · simp [her]

theorem removeLinkSyncOk_fs_of_ne {s : LState} {d p : Path} {a b : Option FsError}
    (h : p ≠ linkPathOf d) : (removeLinkSyncOk s d a b).fs p = s.fs p := by
  by_cases hex : entryExistsAt s.fs d (linkPathOf d) = true
  · cases a with
    | some er =>
        rw [removeLinkSyncOk_lstatErr hex]
        split <;> rfl
    | none =>
        cases he : s.fs (linkPathOf d) with
        | absent => rw [entryExistsAt_of_absent he] at hex; simp at hex
        | file c => rw [removeLinkSyncOk_of_real_none (by rw [he]; rfl)]
        | dir => rw [removeLinkSyncOk_of_real_none (by rw [he]; rfl)]
        | symlink t =>
            have hres : s.fs (pathResolve d t) ≠ Entry.absent := by
              rw [entryExistsAt_of_symlink he] at hex
              simpa [bne_iff_ne] using hex
            cases b with
            | none => rw [removeLinkSyncOk_symlink he hres]; simp [fsUpdate, h]
            | some er => rw [removeLinkSyncOk_symlink_unlinkErr he hres]; split <;> rfl
  · rw [removeLinkSyncOk_of_notExists (by simpa using hex)]

theorem removeLinkSyncOk_preserves_real {s : LState} {d p : Path} {a b : Option FsError}
    (h : isRealEntry (s.fs p) = true) : (removeLinkSyncOk s d a b).fs p = s.fs p := by
  by_cases hp : p = linkPathOf d
  · subst hp
    cases a with
    | some er =>
        rw [removeLinkSyncOk_lstatErr (entryExistsAt_of_real h)]
        split <;> rfl
    | none => rw [removeLinkSyncOk_of_real_none h]
  · exact removeLinkSyncOk_fs_of_ne hp

theorem removeLinkSyncOk_fs_cases (s : LState) (d : Path) (a b : Option FsError) (p : Path) :
    (removeLinkSyncOk s d a b).fs p = s.fs p ∨ (removeLinkSyncOk s d a b).fs p = Entry.absent := by
  by_cases hp : p = linkPathOf d
  · subst hp
    by_cases hex : entryExistsAt s.fs d (linkPathOf d) = true
    · cases a with
      | some er =>
          rw [removeLinkSyncOk_lstatErr hex]
          split <;> exact Or.inl rfl
      | none =>
          cases he : s.fs (linkPathOf d) with
          | absent => rw [entryExistsAt_of_absent he] at hex; simp at hex
          | file c => rw [removeLinkSyncOk_of_real_none (by rw [he]; rfl)]; exact Or.inl he
          | dir => rw [removeLinkSyncOk_of_real_none (by rw [he]; rfl)]; exact Or.inl he
          | symlink t =>
              have hres : s.fs (pathResolve d t) ≠ Entry.absent := by
                rw [entryExistsAt_of_symlink he] at hex
                simpa [bne_iff_ne] using hex
              cases b with
              | none =>
                  rw [removeLinkSyncOk_symlink he hres]
                  right
                  simp [fsUpdate]
              | some er =>
                  rw [removeLinkSyncOk_symlink_unlinkErr he hres]
                  split <;> exact Or.inl he
    · rw [removeLinkSyncOk_of_notExists (by simpa using hex)]
      exact Or.inl rfl
  · exact Or.inl (removeLinkSyncOk_fs_of_ne hp)

/-! ### Bulk teardown lemmas -/

theorem foldRemoveSync_preserves_real {le ue : Path → Option FsError} :
    ∀ (ds : List Path) (st : LState) (p : Path), isRealEntry (st.fs p) = true →
      (ds.foldl (fun acc x => removeLinkSyncOk acc x (le x) (ue x)) st).fs p = st.fs p := by
  intro ds
  induction ds with
  | nil => intro st p _; rfl
  | cons x rest ih =>
      intro st p h
      rw [List.foldl_cons]
      have h1 : (removeLinkSyncOk st x (le x) (ue x)).fs p = st.fs p :=
        removeLinkSyncOk_preserves_real h
      rw [ih _ p (by rw [h1]; exact h), h1]

theorem foldRemoveSync_fs_absent {le ue : Path → Option FsError} :
    ∀ (ds : List Path) (st : LState) (p : Path), st.fs p = Entry.absent →
      (ds.foldl (fun acc x => removeLinkSyncOk acc x (le x) (ue x)) st).fs p = Entry.absent := by
  intro ds
  induction ds with
  | nil => intro st p h; exact h
  | cons x rest ih =>
      intro st p h
      rw [List.foldl_cons]
      refine ih _ p ?_
      rcases removeLinkSyncOk_fs_cases st x (le x) (ue x) p with hc | hc
      · rw [hc, h]
      · exact hc

theorem foldRemoveSync_clears {le ue : Path → Option FsError} {d : Path} {t : List Seg}
    {c : String} :
    ∀ (ds : List Path) (st : LState), ds.Nodup → d ∈ ds → le d = none → ue d = none →
      st.fs (linkPathOf d) = Entry.symlink t → st.fs (pathResolve d t) = Entry.file c →
      (ds.foldl (fun acc x => removeLinkSyncOk acc x (le x) (ue x)) st).fs (linkPathOf d)
        = Entry.absent := by
  intro ds
  induction ds with
  | nil => intro st _ hmem; simp at hmem
  | cons x rest ih =>
      intro st hnd hmem hled hued he hAg
      have hx : x ∉ rest := (List.nodup_cons.mp hnd).1
      have hrestnd : rest.Nodup := (List.nodup_cons.mp hnd).2
      rw [List.foldl_cons]
      rcases List.mem_cons.mp hmem with rfl | hdrest
      · have hstep : removeLinkSyncOk st d (le d) (ue d)
            = { st with fs := fsUpdate st.fs (linkPathOf d) Entry.absent,
                        linkedDirs := mapDelete st.linkedDirs d } := by
          rw [hled, hued]
          exact removeLinkSyncOk_symlink he (by rw [hAg]; exact fun hc2 => Entry.noConfusion hc2)
        rw [hstep]
        exact foldRemoveSync_fs_absent rest _ _ (by simp [fsUpdate])
      · have hne : linkPathOf d ≠ linkPathOf x := by
          intro hcontra
          exact hx (by rw [← linkPathOf_inj hcontra]; exact hdrest)
        refine ih _ hrestnd hdrest hled hued ?_ ?_
        · rw [removeLinkSyncOk_fs_of_ne hne]
          exact he
        · rw [removeLinkSyncOk_preserves_real (by rw [hAg]; rfl)]
          exact hAg

theorem removeAllLinksSync_linkedDirs (s : LState) (le ue : Path → Option FsError) :
    (removeAllLinksSync s le ue).linkedDirs = [] := rfl

theorem removeAllLinksSync_clears {s : LState} {le ue : Path → Option FsError} {d : Path}
    {cfg : AgentConfig} {t : List Seg} {c : String}
    (hmem : (d, cfg) ∈ s.linkedDirs) (hnd : (s.linkedDirs.map (fun kv => kv.1)).Nodup)
    (hled : le d = none) (hued : ue d = none)
    (he : s.fs (linkPathOf d) = Entry.symlink t)
    (hAg : s.fs (pathResolve d t) = Entry.file c) :
    (removeAllLinksSync s le ue).fs (linkPathOf d) = Entry.absent := by
  have hdmem : d ∈ s.linkedDirs.map (fun kv => kv.1) :=
    List.mem_map.mpr ⟨(d, cfg), hmem, rfl⟩
  unfold removeAllLinksSync
  dsimp only
  exact foldRemoveSync_clears _ s hnd hdmem hled hued he hAg

theorem removeAllLinksSync_preserves_real {s : LState} {le ue : Path → Option FsError}
    {p : Path} (h : isRealEntry (s.fs p) = true) :
    (removeAllLinksSync s le ue).fs p = s.fs p := by
  unfold removeAllLinksSync
  dsimp only
  exact foldRemoveSync_preserves_real _ s p h

theorem foldlM_removeLinkSync_eq (le ue : Path → Option FsError) :
    ∀ (ds : List Path) (st : LState),
      ds.foldlM (fun acc x => removeLinkSync acc x (le x) (ue x)) st
        = Except.ok (ds.foldl (fun acc x => removeLinkSyncOk acc x (le x) (ue x)) st) := by
  intro ds
  induction ds with
  | nil => intro st; rfl
  | cons x rest ih =>
      intro st
      rw [List.foldlM_cons, removeLinkSync_eq_ok]
      simpa using ih (removeLinkSyncOk st x (le x) (ue x))

theorem removeAllLinksSyncE_eq_ok (s : LState) (le ue : Path → Option FsError) :
    removeAllLinksSyncE s le ue = Except.ok (removeAllLinksSync s le ue) := by
  unfold removeAllLinksSyncE removeAllLinksSync
  dsimp only
  rw [foldlM_removeLinkSync_eq]
  rfl

theorem foldRemove_preserves_real {errs : Path → Option FsError} :
    ∀ (ds : List Path) (st : LState) (p : Path), isRealEntry (st.fs p) = true →
      (ds.foldl (fun acc x => removeLinkOk acc x (errs x)) st).fs p = st.fs p := by
  intro ds
  induction ds with
  | nil => intro st p _; rfl
  | cons x rest ih =>
      intro st p h
      rw [List.foldl_cons]
      have h1 : (removeLinkOk st x (errs x)).fs p = st.fs p :=
        removeLinkOk_preserves_real h
      rw [ih _ p (by rw [h1]; exact h), h1]

theorem removeAllLinks_linkedDirs (s : LState) (errs : Path → Option FsError) :
    (removeAllLinks s errs).linkedDirs = [] := rfl

theorem removeAllLinks_preserves_real {s : LState} {errs : Path → Option FsError}
    {p : Path} (h : isRealEntry (s.fs p) = true) :
    (removeAllLinks s errs).fs p = s.fs p := by
  unfold removeAllLinks
  dsimp only
  exact foldRemove_preserves_real _ s p h

/-! ### Matcher lemmas -/

theorem shouldLink_escape {d : Path} {cfg : AgentConfig} (h : ¬ cfg.rootDir <+: d) :
    shouldLink d cfg = false := by
  obtain ⟨rest, hrel⟩ := pathRelative_escape h
  have hdd : strStartsWithDotDot ".." = true := by decide
  unfold shouldLink
  dsimp only
  rw [hrel]
  simp [relStartsWithDotDot, hdd]

theorem shouldLink_root_self (cfg : AgentConfig) : shouldLink cfg.rootDir cfg = false := by
  unfold shouldLink
  dsimp only
  rw [pathRelative_self]
  simp [relStartsWithDotDot, relIsAbsolute]

theorem shouldLink_exclude {d : Path} {cfg : AgentConfig}
    (hexc : excludeHit cfg (pathRelative cfg.rootDir d) = true) :
    shouldLink d cfg = false := by
  unfold shouldLink
  dsimp only
  split
  · rfl
  · split
    · rfl
    · simp [hexc]

theorem shouldLink_default_allow {d : Path} {cfg : AgentConfig}
    (hni : cfg.includePatterns = none)
    (hdd : relStartsWithDotDot (pathRelative cfg.rootDir d) = false)
    (habs : relIsAbsolute (pathRelative cfg.rootDir d) = false)
    (hne : pathRelative cfg.rootDir d ≠ [])
    (hexc : excludeHit cfg (pathRelative cfg.rootDir d) = false) :
    shouldLink d cfg = true := by
  unfold shouldLink
  dsimp only
  rw [hdd, habs]
  simp only [Bool.or_self, Bool.false_eq_true, if_false]
  rw [if_neg hne, if_neg (by rw [hexc]; exact Bool.false_ne_true)]
  unfold includeHit
  rw [hni]

theorem checkAndLink_none {s : LState} {d : Path} {cfgs : List AgentConfig}
    (hm : cfgs.filter (fun c => shouldLink d c) = []) : checkAndLink s d cfgs = s := by
  unfold checkAndLink
  dsimp only
  rw [hm]

theorem checkAndLink_single {s : LState} {d : Path} {cfgs : List AgentConfig}
    {cfg : AgentConfig} (hm : cfgs.filter (fun c => shouldLink d c) = [cfg]) :
    checkAndLink s d cfgs = createSymlink s d cfg := by
  unfold checkAndLink
  dsimp only
  rw [hm]

theorem checkAndLink_conflict {s : LState} {d : Path} {cfgs : List AgentConfig}
    {c1 c2 : AgentConfig} {rest : List AgentConfig}
    (hm : cfgs.filter (fun c => shouldLink d c) = c1 :: c2 :: rest) :
    checkAndLink s d cfgs
      = { s with log := s.log ++
          [LogEntry.conflict d ((c1 :: c2 :: rest).map (fun c => c.rootDir))] } := by
  unfold checkAndLink
  dsimp only
  rw [hm]

theorem checkAndLink_escape {s : LState} {d : Path} {cfg : AgentConfig}
    (h : ¬ cfg.rootDir <+: d) : checkAndLink s d [cfg] = s := by
  refine checkAndLink_none ?_
  simp [shouldLink_escape h]

/-! ### Claim theorems -/

/-- C1: for every directory whose AGENTS.md entry is a regular file or
a directory (not a symbolic link), neither the link-creation path
(createSymlink, checkAndLink, the applyAllLinks loop of runOnce) nor
the removal path (removeLink, removeLinkSync, removeAllLinks,
removeAllLinksSync) ever changes that entry, regardless of which rules
match; only symbolic-link entries are ever removed or replaced. -/
theorem claim_C1 :
    (∀ (s : LState) (d0 d : Path) (cfg : AgentConfig),
        isRealEntry (s.fs (linkPathOf d0)) = true →
        (createSymlink s d cfg).fs (linkPathOf d0) = s.fs (linkPathOf d0)) ∧
    (∀ (s : LState) (d0 d : Path) (cfgs : List AgentConfig),
        isRealEntry (s.fs (linkPathOf d0)) = true →
        (checkAndLink s d cfgs).fs (linkPathOf d0) = s.fs (linkPathOf d0)) ∧
    (∀ (s : LState) (d0 : Path) (dirs : List Path) (cfgs : List AgentConfig),
        isRealEntry (s.fs (linkPathOf d0)) = true →
        (applyAllLinks s dirs cfgs).fs (linkPathOf d0) = s.fs (linkPathOf d0)) ∧
    (∀ (s : LState) (d0 d : Path) (e : Option FsError),
        isRealEntry (s.fs (linkPathOf d0)) = true →
        (removeLinkOk s d e).fs (linkPathOf d0) = s.fs (linkPathOf d0)) ∧
    (∀ (s : LState) (d0 d : Path) (a b : Option FsError),
        isRealEntry (s.fs (linkPathOf d0)) = true →
        (removeLinkSyncOk s d a b).fs (linkPathOf d0) = s.fs (linkPathOf d0)) ∧
    (∀ (s : LState) (d0 : Path) (errs : Path → Option FsError),
        isRealEntry (s.fs (linkPathOf d0)) = true →
        (removeAllLinks s errs).fs (linkPathOf d0) = s.fs (linkPathOf d0)) ∧
    (∀ (s : LState) (d0 : Path) (le ue : Path → Option FsError),
        isRealEntry (s.fs (linkPathOf d0)) = true →
        (removeAllLinksSync s le ue).fs (linkPathOf d0) = s.fs (linkPathOf d0)) :=
  ⟨fun _ _ _ _ h => createSymlink_preserves_real h,
   fun _ _ _ _ h => checkAndLink_preserves_real h,
   fun s _ dirs _ h => applyAllLinks_preserves_real dirs s _ h,
   fun _ _ _ _ h => removeLinkOk_preserves_real h,
   fun _ _ _ _ _ h => removeLinkSyncOk_preserves_real h,
   fun _ _ _ h => removeAllLinks_preserves_real h,
   fun _ _ _ _ h => removeAllLinksSync_preserves_real h⟩

/-- Witness for C1 at the user-authored file inside /p/c. -/
theorem claim_C1_witness :
    (createSymlink wRealTracked ["p", "c"] wCfg).fs (linkPathOf ["p", "c"])
        = wRealTracked.fs (linkPathOf ["p", "c"]) ∧
    (checkAndLink wRealTracked ["p", "c"] [wCfg]).fs (linkPathOf ["p", "c"])
        = wRealTracked.fs (linkPathOf ["p", "c"]) ∧
    (applyAllLinks wRealTracked [["p", "c"]] [wCfg]).fs (linkPathOf ["p", "c"])
        = wRealTracked.fs (linkPathOf ["p", "c"]) ∧
    (removeLinkOk wRealTracked ["p", "c"] none).fs (linkPathOf ["p", "c"])
        = wRealTracked.fs (linkPathOf ["p", "c"]) ∧
    (removeLinkSyncOk wRealTracked ["p", "c"] none none).fs (linkPathOf ["p", "c"])
        = wRealTracked.fs (linkPathOf ["p", "c"]) ∧
    (removeAllLinks wRealTracked (fun _ => none)).fs (linkPathOf ["p", "c"])
        = wRealTracked.fs (linkPathOf ["p", "c"]) ∧
    (removeAllLinksSync wRealTracked (fun _ => none) (fun _ => none)).fs
        (linkPathOf ["p", "c"]) = wRealTracked.fs (linkPathOf ["p", "c"]) :=
  ⟨claim_C1.1 wRealTracked ["p", "c"] ["p", "c"] wCfg (by decide),
   claim_C1.2.1 wRealTracked ["p", "c"] ["p", "c"] [wCfg] (by decide),
   claim_C1.2.2.1 wRealTracked ["p", "c"] [["p", "c"]] [wCfg] (by decide),
   claim_C1.2.2.2.1 wRealTracked ["p", "c"] ["p", "c"] none (by decide),
   claim_C1.2.2.2.2.1 wRealTracked ["p", "c"] ["p", "c"] none none (by decide),
   claim_C1.2.2.2.2.2.1 wRealTracked ["p", "c"] (fun _ => none) (by decide),
   claim_C1.2.2.2.2.2.2 wRealTracked ["p", "c"] (fun _ => none) (fun _ => none) (by decide)⟩

/-- C2: when two or more distinct rules of the loaded set match a
candidate directory, checkAndLink changes no filesystem entry and no
record and emits one conflict warning whose root list contains the
root of every matching rule; with exactly one matching rule and a free
link path a link resolving to the rule document is realized; with zero
matching rules the state is untouched. -/
theorem claim_C2 :
    (∀ (s : LState) (d : Path) (cfgs : List AgentConfig) (c1 c2 : AgentConfig)
        (rest : List AgentConfig),
        cfgs.filter (fun c => shouldLink d c) = c1 :: c2 :: rest →
        (∀ p, (checkAndLink s d cfgs).fs p = s.fs p) ∧
        (checkAndLink s d cfgs).linkedDirs = s.linkedDirs ∧
        (checkAndLink s d cfgs).log = s.log ++
          [LogEntry.conflict d ((c1 :: c2 :: rest).map (fun c => c.rootDir))] ∧
        (∀ cfg ∈ cfgs, shouldLink d cfg = true →
          cfg.rootDir ∈ (c1 :: c2 :: rest).map (fun c => c.rootDir))) ∧
    (∀ (s : LState) (d : Path) (cfgs : List AgentConfig) (cfg : AgentConfig),
        cfgs.filter (fun c => shouldLink d c) = [cfg] →
        s.fs (linkPathOf d) = Entry.absent → cleanPath d → cleanPath cfg.agentFile →
        (∃ cc, s.fs cfg.agentFile = Entry.file cc) →
        ∃ t, (checkAndLink s d cfgs).fs (linkPathOf d) = Entry.symlink t ∧
          pathResolve d t = cfg.agentFile) ∧
    (∀ (s : LState) (d : Path) (cfgs : List AgentConfig),
        cfgs.filter (fun c => shouldLink d c) = [] → checkAndLink s d cfgs = s) := by
  refine ⟨?_, ?_, fun _ _ _ hm => checkAndLink_none hm⟩
  · intro s d cfgs c1 c2 rest hm
    rw [checkAndLink_conflict hm]
    refine ⟨fun p => rfl, rfl, rfl, ?_⟩
    intro cfg hcfg hsl
    have hmemf : cfg ∈ cfgs.filter (fun c => shouldLink d c) :=
      List.mem_filter.mpr ⟨hcfg, by simpa using hsl⟩
    rw [hm] at hmemf
    exact List.mem_map.mpr ⟨cfg, hmemf, rfl⟩
  · intro s d cfgs cfg hm habs hcd hcf hex
    obtain ⟨cc, hAg⟩ := hex
    have hrt : pathResolve d (pathRelative d cfg.agentFile) = cfg.agentFile :=
      pathResolve_pathRelative hcd hcf
    have hne : s.fs (pathResolve d (pathRelative d cfg.agentFile)) ≠ Entry.absent := by
      rw [hrt, hAg]
      exact fun hc2 => Entry.noConfusion hc2
    rw [checkAndLink_single hm]
    exact ⟨pathRelative d cfg.agentFile, createSymlink_fs_absent habs hne, hrt⟩

/-- Witness for C2: the literal overlapping-rules scenario of the
spec, a singleton rule set, and an unmatched directory. -/
theorem claim_C2_witness :
    ((∀ p, (checkAndLink wEmpty ["p", "src", "components"] [wCfg, wCfgSrc]).fs p
        = wEmpty.fs p) ∧
      (checkAndLink wEmpty ["p", "src", "components"] [wCfg, wCfgSrc]).linkedDirs
        = wEmpty.linkedDirs ∧
      (checkAndLink wEmpty ["p", "src", "components"] [wCfg, wCfgSrc]).log
        = wEmpty.log ++ [LogEntry.conflict ["p", "src", "components"]
            (([wCfg, wCfgSrc] : List AgentConfig).map (fun c => c.rootDir))] ∧
      (∀ cfg ∈ ([wCfg, wCfgSrc] : List AgentConfig),
        shouldLink ["p", "src", "components"] cfg = true →
        cfg.rootDir ∈ ([wCfg, wCfgSrc] : List AgentConfig).map (fun c => c.rootDir))) ∧
    (∃ t, (checkAndLink wEmpty ["p", "src", "components"] [wCfgSrc]).fs
        (linkPathOf ["p", "src", "components"]) = Entry.symlink t ∧
      pathResolve ["p", "src", "components"] t = wCfgSrc.agentFile) ∧
    checkAndLink wEmpty ["p", "other"] [wCfgSrc] = wEmpty :=
  ⟨claim_C2.1 wEmpty ["p", "src", "components"] [wCfg, wCfgSrc] wCfg wCfgSrc [] (by decide),
   claim_C2.2.1 wEmpty ["p", "src", "components"] [wCfgSrc] wCfgSrc (by decide) (by decide)
     (by decide) (by decide) ⟨"base", by decide⟩,
   claim_C2.2.2 wEmpty ["p", "other"] [wCfgSrc] (by decide)⟩

/-- C3: when every tracked directory still holds a created symbolic
link with a live target, the guarded synchronous teardown of the
signal handler removes the link from every tracked directory, leaves
the link-state store empty (hasLinks is false), and a second
invocation of the guarded cleanup is a no-op. -/
theorem claim_C3 (s : LState)
    (hnd : (s.linkedDirs.map (fun kv => kv.1)).Nodup)
    (hlinks : ∀ kv ∈ s.linkedDirs, ∃ t c,
        s.fs (linkPathOf kv.1) = Entry.symlink t ∧
        s.fs (pathResolve kv.1 t) = Entry.file c) :
    (∀ kv ∈ s.linkedDirs,
        (cleanupSync { hasCleanedUp := false, runner := s }).runner.fs (linkPathOf kv.1)
          = Entry.absent) ∧
    hasLinks (cleanupSync { hasCleanedUp := false, runner := s }).runner = false ∧
    cleanupSync (cleanupSync { hasCleanedUp := false, runner := s })
      = cleanupSync { hasCleanedUp := false, runner := s } := by
  refine ⟨?_, ?_, rfl⟩
  · intro kv hkv
    obtain ⟨t, c, he, hAg⟩ := hlinks kv hkv
    show (removeAllLinksSync s (fun _ => none) (fun _ => none)).fs (linkPathOf kv.1)
      = Entry.absent
    exact removeAllLinksSync_clears hkv hnd rfl rfl he hAg
  · show hasLinks (removeAllLinksSync s (fun _ => none) (fun _ => none)) = false
    unfold hasLinks
    rw [removeAllLinksSync_linkedDirs]
    rfl

/-- Witness for C3 on a state with one created link. -/
theorem claim_C3_witness :
    (cleanupSync { hasCleanedUp := false, runner := wLinked }).runner.fs
        (linkPathOf ["p", "a"]) = Entry.absent ∧
    hasLinks (cleanupSync { hasCleanedUp := false, runner := wLinked }).runner = false ∧
    cleanupSync (cleanupSync { hasCleanedUp := false, runner := wLinked })
      = cleanupSync { hasCleanedUp := false, runner := wLinked } := by
  have h := claim_C3 wLinked (by decide)
    (by
      intro kv hkv
      have hkv2 : kv = (["p", "a"], wCfg) := by
        simpa [wLinked] using hkv
      subst hkv2
      exact ⟨["..", "AGENTS.md"], "base", by decide, by decide⟩)
  exact ⟨h.1 (["p", "a"], wCfg) (by decide), h.2.1, h.2.2⟩

/-- C4 counterexample: a directory whose AGENTS.md is a pre-existing
regular file is recorded in linkedDirs by createSymlink even though no
link is realized there, refuting the claim that such a directory is
never recorded. -/
theorem claim_C4_counterexample :
    isRealEntry (wEmpty.fs (linkPathOf ["p", "c"])) = true ∧
    (createSymlink wEmpty ["p", "c"] wCfg).fs (linkPathOf ["p", "c"])
      = wEmpty.fs (linkPathOf ["p", "c"]) ∧
    mapHas wEmpty.linkedDirs ["p", "c"] = false ∧
    mapHas (createSymlink wEmpty ["p", "c"] wCfg).linkedDirs ["p", "c"] = true := by
  decide

/-- C4 amended: createSymlink records the directory unconditionally,
before the filesystem is inspected, so directories holding a real file
(or failing creations) are recorded too; a record is removed when the
link is removed or found already absent, and the store is cleared
entirely by both bulk teardowns. -/
theorem claim_C4_amended :
    (∀ (s : LState) (d : Path) (cfg : AgentConfig),
        mapHas (createSymlink s d cfg).linkedDirs d = true) ∧
    (∀ (s : LState) (d : Path) (e : Option FsError),
        entryExistsAt s.fs d (linkPathOf d) = false →
        mapHas (removeLinkOk s d e).linkedDirs d = false) ∧
    (∀ (s : LState) (d : Path) (t : List Seg),
        s.fs (linkPathOf d) = Entry.symlink t →
        s.fs (pathResolve d t) ≠ Entry.absent →
        mapHas (removeLinkOk s d none).linkedDirs d = false) ∧
    (∀ (s : LState) (errs : Path → Option FsError),
        (removeAllLinks s errs).linkedDirs = []) ∧
    (∀ (s : LState) (le ue : Path → Option FsError),
        (removeAllLinksSync s le ue).linkedDirs = []) := by
  refine ⟨?_, ?_, ?_, removeAllLinks_linkedDirs, removeAllLinksSync_linkedDirs⟩
  · intro s d cfg
    rw [createSymlink_linkedDirs]
    exact mapHas_mapSet s.linkedDirs d cfg
  · intro s d e h
    rw [removeLinkOk_of_notExists h]
    exact mapHas_mapDelete s.linkedDirs d
  · intro s d t he hex
    rw [removeLinkOk_symlink he hex]
    exact mapHas_mapDelete s.linkedDirs d

/-- Witness for the amended C4. -/
theorem claim_C4_amended_witness :
    mapHas (createSymlink wEmpty ["p", "c"] wCfg).linkedDirs ["p", "c"] = true ∧
    mapHas (removeLinkOk wEmpty ["p", "x"] none).linkedDirs ["p", "x"] = false ∧
    mapHas (removeLinkOk wLinked ["p", "a"] none).linkedDirs ["p", "a"] = false ∧
    (removeAllLinks wLinked (fun _ => none)).linkedDirs = [] ∧
    (removeAllLinksSync wLinked (fun _ => none) (fun _ => none)).linkedDirs = [] :=
  ⟨claim_C4_amended.1 wEmpty ["p", "c"] wCfg,
   claim_C4_amended.2.1 wEmpty ["p", "x"] none (by decide),
   claim_C4_amended.2.2.1 wLinked ["p", "a"] ["..", "AGENTS.md"] (by decide) (by decide),
   claim_C4_amended.2.2.2.1 wLinked (fun _ => none),
   claim_C4_amended.2.2.2.2 wLinked (fun _ => none) (fun _ => none)⟩

/-- C5 counterexample: when the entry is a pre-existing regular file,
the asynchronous removeLink leaves the record in the store, so
has(directory) is still true after the withdraw, refuting the claim
that the record is dropped in every outcome. -/
theorem claim_C5_counterexample :
    isRealEntry (wRealTracked.fs (linkPathOf ["p", "c"])) = true ∧
    mapHas wRealTracked.linkedDirs ["p", "c"] = true ∧
    mapHas (removeLinkOk wRealTracked ["p", "c"] none).linkedDirs ["p", "c"] = true := by
  decide

/-- C5 amended: the synchronous removeLinkSync forgets the directory
in every outcome (nothing on disk, regular file left untouched,
symlink removed), while the asynchronous removeLink forgets it when
nothing exists or a symlink is removed but keeps the record when the
entry is a regular file. -/
theorem claim_C5_amended :
    (∀ (s : LState) (d : Path) (a b : Option FsError),
        entryExistsAt s.fs d (linkPathOf d) = false →
        mapHas (removeLinkSyncOk s d a b).linkedDirs d = false) ∧
    (∀ (s : LState) (d : Path) (b : Option FsError),
        isRealEntry (s.fs (linkPathOf d)) = true →
        mapHas (removeLinkSyncOk s d none b).linkedDirs d = false ∧
        (removeLinkSyncOk s d none b).fs (linkPathOf d) = s.fs (linkPathOf d)) ∧
    (∀ (s : LState) (d : Path) (t : List Seg),
        s.fs (linkPathOf d) = Entry.symlink t →
        s.fs (pathResolve d t) ≠ Entry.absent →
        mapHas (removeLinkSyncOk s d none none).linkedDirs d = false ∧
        (removeLinkSyncOk s d none none).fs (linkPathOf d) = Entry.absent) ∧
    (∀ (s : LState) (d : Path) (e : Option FsError),
        entryExistsAt s.fs d (linkPathOf d) = false →
        mapHas (removeLinkOk s d e).linkedDirs d = false) ∧
    (∀ (s : LState) (d : Path) (t : List Seg),
        s.fs (linkPathOf d) = Entry.symlink t →
        s.fs (pathResolve d t) ≠ Entry.absent →
        mapHas (removeLinkOk s d none).linkedDirs d = false) ∧
    (∀ (s : LState) (d : Path) (e : Option FsError),
        isRealEntry (s.fs (linkPathOf d)) = true →
        (removeLinkOk s d e).linkedDirs = s.linkedDirs ∧
        (removeLinkOk s d e).fs (linkPathOf d) = s.fs (linkPathOf d)) := by
  refine ⟨?_, ?_, ?_, ?_, ?_, ?_⟩
  · intro s d a b h
    rw [removeLinkSyncOk_of_notExists h]
    exact mapHas_mapDelete s.linkedDirs d
  · intro s d b h
    rw [removeLinkSyncOk_of_real_none h]
    exact ⟨mapHas_mapDelete s.linkedDirs d, rfl⟩
  · intro s d t he hex
    rw [removeLinkSyncOk_symlink he hex]
    exact ⟨mapHas_mapDelete s.linkedDirs d, by simp [fsUpdate]⟩
  · intro s d e h
    rw [removeLinkOk_of_notExists h]
    exact mapHas_mapDelete s.linkedDirs d
  · intro s d t he hex
    rw [removeLinkOk_symlink he hex]
    exact mapHas_mapDelete s.linkedDirs d
  · intro s d e h
    rw [removeLinkOk_of_real h]
    exact ⟨rfl, rfl⟩

/-- Witness for the amended C5. -/
theorem claim_C5_amended_witness :
    mapHas (removeLinkSyncOk wEmpty ["p", "x"] none none).linkedDirs ["p", "x"] = false ∧
    (mapHas (removeLinkSyncOk wRealTracked ["p", "c"] none none).linkedDirs ["p", "c"]
        = false ∧
      (removeLinkSyncOk wRealTracked ["p", "c"] none none).fs (linkPathOf ["p", "c"])
        = wRealTracked.fs (linkPathOf ["p", "c"])) ∧
    (mapHas (removeLinkSyncOk wLinked ["p", "a"] none none).linkedDirs ["p", "a"] = false ∧
      (removeLinkSyncOk wLinked ["p", "a"] none none).fs (linkPathOf ["p", "a"])
        = Entry.absent) ∧
    mapHas (removeLinkOk wEmpty ["p", "x"] none).linkedDirs ["p", "x"] = false ∧
    mapHas (removeLinkOk wLinked ["p", "a"] none).linkedDirs ["p", "a"] = false ∧
    ((removeLinkOk wRealTracked ["p", "c"] none).linkedDirs = wRealTracked.linkedDirs ∧
      (removeLinkOk wRealTracked ["p", "c"] none).fs (linkPathOf ["p", "c"])
        = wRealTracked.fs (linkPathOf ["p", "c"])) :=
  ⟨claim_C5_amended.1 wEmpty ["p", "x"] none none (by decide),
   claim_C5_amended.2.1 wRealTracked ["p", "c"] none (by decide),
   claim_C5_amended.2.2.1 wLinked ["p", "a"] ["..", "AGENTS.md"] (by decide) (by decide),
   claim_C5_amended.2.2.2.1 wEmpty ["p", "x"] none (by decide),
   claim_C5_amended.2.2.2.2.1 wLinked ["p", "a"] ["..", "AGENTS.md"] (by decide) (by decide),
   claim_C5_amended.2.2.2.2.2 wRealTracked ["p", "c"] none (by decide)⟩

/-- C6 counterexample: with a dangling stale symlink in /p/a whose
target path is the link path of candidate /p/b, the first pass skips
the stale link (the existence probe says nothing is there and the
creation attempt fails) while the second pass replaces it, so the
on-disk state after the second run differs from the state after the
first, refuting unconditional idempotence of the pass. -/
theorem claim_C6_counterexample :
    (applyAllLinks (applyAllLinks wChain [["p", "a"], ["p", "b"]] [wCfg])
        [["p", "a"], ["p", "b"]] [wCfg]).fs (linkPathOf ["p", "a"])
      ≠ (applyAllLinks wChain [["p", "a"], ["p", "b"]] [wCfg]).fs (linkPathOf ["p", "a"]) := by
  decide

/-- C6 amended: a symlink already resolving to the rule document makes
createSymlink a filesystem no-op, and the reconciliation pass is
idempotent on the filesystem provided the candidate list has no
duplicates, paths are normalized, every rule document exists as a
regular file, and no candidate link path initially holds a dangling
symlink. -/
theorem claim_C6_amended :
    (∀ (s : LState) (d : Path) (cfg : AgentConfig) (t : List Seg),
        s.fs (linkPathOf d) = Entry.symlink t →
        pathResolve d t = normalizeSegs cfg.agentFile →
        ∀ p, (createSymlink s d cfg).fs p = s.fs p) ∧
    (∀ (s : LState) (dirs : List Path) (cfgs : List AgentConfig),
        dirs.Nodup → (∀ d ∈ dirs, cleanPath d) →
        (∀ cfg ∈ cfgs, cleanPath cfg.agentFile ∧ ∃ c, s.fs cfg.agentFile = Entry.file c) →
        (∀ d ∈ dirs, ∀ t, s.fs (linkPathOf d) = Entry.symlink t →
            s.fs (pathResolve d t) ≠ Entry.absent) →
        ∀ p, (applyAllLinks (applyAllLinks s dirs cfgs) dirs cfgs).fs p
          = (applyAllLinks s dirs cfgs).fs p) :=
  ⟨fun _ _ _ _ he hres p => createSymlink_noop_of_correct he hres p,
   fun _ _ _ hnd hclean hcfg hdang p => applyAllLinks_idem hnd hclean hcfg hdang p⟩

/-- Witness for the amended C6 on a fresh two-candidate scenario. -/
theorem claim_C6_amended_witness :
    ((createSymlink wLinked ["p", "a"] wCfg).fs (linkPathOf ["p", "a"])
        = wLinked.fs (linkPathOf ["p", "a"])) ∧
    (applyAllLinks (applyAllLinks wEmpty [["p", "a"], ["p", "b"]] [wCfg])
        [["p", "a"], ["p", "b"]] [wCfg]).fs (linkPathOf ["p", "a"])
      = (applyAllLinks wEmpty [["p", "a"], ["p", "b"]] [wCfg]).fs (linkPathOf ["p", "a"]) := by
  constructor
  · exact claim_C6_amended.1 wLinked ["p", "a"] wCfg ["..", "AGENTS.md"] (by decide)
      (by decide) (linkPathOf ["p", "a"])
  · refine claim_C6_amended.2 wEmpty [["p", "a"], ["p", "b"]] [wCfg] (by decide) (by decide)
      ?_ ?_ (linkPathOf ["p", "a"])
    · intro cfg hcfg
      have hcfg2 : cfg = wCfg := by simpa using hcfg
      subst hcfg2
      exact ⟨by decide, "base", by decide⟩
    · intro d hd t ht
      have hd2 : d = ["p", "a"] ∨ d = ["p", "b"] := by simpa using hd
      rcases hd2 with rfl | rfl
      · have habs : wEmpty.fs (linkPathOf ["p", "a"]) = Entry.absent := by decide
        rw [habs] at ht
        exact Entry.noConfusion ht
      · have habs : wEmpty.fs (linkPathOf ["p", "b"]) = Entry.absent := by decide
        rw [habs] at ht
        exact Entry.noConfusion ht

/-- C7: withdraw treats absence as success: removeLink never
propagates an error, an absent entry just drops the record, an ENOENT
thrown by the unlink step is swallowed with the record still dropped,
a repeated error-free withdraw is a no-op after the first, and the
bulk removal always finishes with an empty store. -/
theorem claim_C7 :
    (∀ (s : LState) (d : Path) (e : Option FsError), (removeLink s d e).isOk = true) ∧
    (∀ (s : LState) (d : Path) (e : Option FsError),
        entryExistsAt s.fs d (linkPathOf d) = false →
        removeLink s d e = Except.ok { s with linkedDirs := mapDelete s.linkedDirs d }) ∧
    (∀ (s : LState) (d : Path) (t : List Seg),
        s.fs (linkPathOf d) = Entry.symlink t →
        s.fs (pathResolve d t) ≠ Entry.absent →
        removeLink s d (some FsError.ENOENT)
          = Except.ok { s with linkedDirs := mapDelete s.linkedDirs d }) ∧
    (∀ (s : LState) (d : Path),
        removeLinkOk (removeLinkOk s d none) d none = removeLinkOk s d none) ∧
    (∀ (s : LState) (errs : Path → Option FsError),
        (removeAllLinks s errs).linkedDirs = []) := by
  refine ⟨removeLink_isOk, ?_, ?_, removeLinkOk_idem, removeAllLinks_linkedDirs⟩
  · intro s d e h
    rw [removeLink_eq_ok, removeLinkOk_of_notExists h]
  · intro s d t he hex
    rw [removeLink_eq_ok, removeLinkOk_symlink_err he hex]
    simp

/-- Witness for C7 on the tracked-link state. -/
theorem claim_C7_witness :
    (removeLink wLinked ["p", "a"] (some FsError.other)).isOk = true ∧
    removeLink wEmpty ["p", "x"] none
      = Except.ok { wEmpty with linkedDirs := mapDelete wEmpty.linkedDirs ["p", "x"] } ∧
    removeLink wLinked ["p", "a"] (some FsError.ENOENT)
      = Except.ok { wLinked with linkedDirs := mapDelete wLinked.linkedDirs ["p", "a"] } ∧
    removeLinkOk (removeLinkOk wLinked ["p", "a"] none) ["p", "a"] none
      = removeLinkOk wLinked ["p", "a"] none ∧
    (removeAllLinks wLinked (fun _ => none)).linkedDirs = [] :=
  ⟨claim_C7.1 wLinked ["p", "a"] (some FsError.other),
   claim_C7.2.1 wEmpty ["p", "x"] none (by decide),
   claim_C7.2.2.1 wLinked ["p", "a"] ["..", "AGENTS.md"] (by decide) (by decide),
   claim_C7.2.2.2.1 wLinked ["p", "a"],
   claim_C7.2.2.2.2 wLinked (fun _ => none)⟩

/-- C8: the matcher returns false whenever the directory is not
strictly inside the rule root (the relative path then starts with a
parent-traversal segment) and for the root directory itself, so a rule
alone never causes checkAndLink to touch a directory outside its own
subtree. -/
theorem claim_C8 :
    (∀ (d : Path) (cfg : AgentConfig), ¬ (cfg.rootDir <+: d) → shouldLink d cfg = false) ∧
    (∀ cfg : AgentConfig, shouldLink cfg.rootDir cfg = false) ∧
    (∀ (s : LState) (d : Path) (cfg : AgentConfig), ¬ (cfg.rootDir <+: d) →
        checkAndLink s d [cfg] = s) :=
  ⟨fun _ _ h => shouldLink_escape h, shouldLink_root_self,
   fun _ _ _ h => checkAndLink_escape h⟩

/-- Witness for C8 outside the rule subtree and at the root itself. -/
theorem claim_C8_witness :
    shouldLink ["q", "x"] wCfg = false ∧
    shouldLink wCfg.rootDir wCfg = false ∧
    checkAndLink wEmpty ["q", "x"] [wCfg] = wEmpty :=
  ⟨claim_C8.1 ["q", "x"] wCfg (by decide), claim_C8.2.1 wCfg,
   claim_C8.2.2 wEmpty ["q", "x"] wCfg (by decide)⟩

/-- C9 counterexample: the directory /p/..hidden lies strictly inside
the rule root /p, no exclude list is declared and the include list is
absent, yet shouldLink rejects it, because the source tests the
relative path with a textual two-dot prefix check; this refutes the
claim for every inside-root directory. -/
theorem claim_C9_counterexample :
    wCfgNoInclude.rootDir <+: ["p", "..hidden"] ∧
    (["p", "..hidden"] : Path) ≠ wCfgNoInclude.rootDir ∧
    wCfgNoInclude.includePatterns = none ∧
    wCfgNoInclude.excludePatterns = none ∧
    shouldLink ["p", "..hidden"] wCfgNoInclude = false := by
  decide

/-- C9 amended: with no include list the matcher accepts every
directory whose relative path is nonempty, does not textually start
with two dots, is not absolute and hits no exclude pattern
(default-allow); an exclude hit forces rejection regardless of the
include list. -/
theorem claim_C9_amended :
    (∀ (d : Path) (cfg : AgentConfig),
        cfg.includePatterns = none →
        relStartsWithDotDot (pathRelative cfg.rootDir d) = false →
        relIsAbsolute (pathRelative cfg.rootDir d) = false →
        pathRelative cfg.rootDir d ≠ [] →
        excludeHit cfg (pathRelative cfg.rootDir d) = false →
        shouldLink d cfg = true) ∧
    (∀ (d : Path) (cfg : AgentConfig),
        excludeHit cfg (pathRelative cfg.rootDir d) = true → shouldLink d cfg = false) :=
  ⟨fun _ _ hni hdd habs hne hexc => shouldLink_default_allow hni hdd habs hne hexc,
   fun _ _ hexc => shouldLink_exclude hexc⟩

/-- Witness for the amended C9: default-allow accepts /p/sub, and an
exclude pattern rejects it even with no include list. -/
theorem claim_C9_amended_witness :
    shouldLink ["p", "sub"] wCfgNoInclude = true ∧
    shouldLink ["p", "sub"] wCfgExcl = false :=
  ⟨claim_C9_amended.1 ["p", "sub"] wCfgNoInclude (by decide) (by decide) (by decide)
     (by decide) (by decide),
   claim_C9_amended.2 ["p", "sub"] wCfgExcl (by decide)⟩

/-- C10: the synchronous teardown primitives are total: removeLinkSync
returns normally for every state and injected lstat or unlink failure,
the bulk loop in the error monad always yields the plain result, the
store is cleared unconditionally, and a tracked directory whose own
calls succeed has its symlink removed even when removals for other
directories fail. -/
theorem claim_C10 :
    (∀ (s : LState) (d : Path) (a b : Option FsError),
        (removeLinkSync s d a b).isOk = true) ∧
    (∀ (s : LState) (le ue : Path → Option FsError),
        removeAllLinksSyncE s le ue = Except.ok (removeAllLinksSync s le ue)) ∧
    (∀ (s : LState) (le ue : Path → Option FsError),
        (removeAllLinksSync s le ue).linkedDirs = []) ∧
    (∀ (s : LState) (le ue : Path → Option FsError) (d : Path) (cfg : AgentConfig)
        (t : List Seg) (c : String),
        (d, cfg) ∈ s.linkedDirs → (s.linkedDirs.map (fun kv => kv.1)).Nodup →
        le d = none → ue d = none →
        s.fs (linkPathOf d) = Entry.symlink t →
        s.fs (pathResolve d t) = Entry.file c →
        (removeAllLinksSync s le ue).fs (linkPathOf d) = Entry.absent) :=
  ⟨removeLinkSync_isOk, removeAllLinksSyncE_eq_ok, removeAllLinksSync_linkedDirs,
   fun _ _ _ _ _ _ _ hmem hnd hled hued he hAg =>
     removeAllLinksSync_clears hmem hnd hled hued he hAg⟩

/-- Witness for C10 with an oracle that fails for another path. -/
theorem claim_C10_witness :
    (removeLinkSync wLinked ["p", "a"] (some FsError.other) none).isOk = true ∧
    removeAllLinksSyncE wLinked wErrs wErrs
      = Except.ok (removeAllLinksSync wLinked wErrs wErrs) ∧
    (removeAllLinksSync wLinked wErrs wErrs).linkedDirs = [] ∧
    (removeAllLinksSync wLinked wErrs wErrs).fs (linkPathOf ["p", "a"]) = Entry.absent :=
  ⟨claim_C10.1 wLinked ["p", "a"] (some FsError.other) none,
   claim_C10.2.1 wLinked wErrs wErrs,
   claim_C10.2.2.1 wLinked wErrs wErrs,
   claim_C10.2.2.2 wLinked wErrs wErrs ["p", "a"] wCfg ["..", "AGENTS.md"] "base"
     (by decide) (by decide) (by decide) (by decide) (by decide) (by decide)⟩

end SymAgents
